import Mathlib

/-!
Verification of the sqlite sync store and event extraction engine
(`SqliteSyncStore` in the source).

Shallow embedding conventions:

* Database tables are lists of row records; row fields keep the source's
  column names.
* `BigIntText` columns (block numbers, timestamps, ...) are stored by the
  source as fixed-width zero-padded decimal text (`encodeAsText`, spec
  section 4.1) precisely so that lexicographic string comparison agrees
  with numeric comparison.  The embedding represents every such column
  directly by its numeric value (`Nat`) and performs the corresponding
  numeric comparison wherever the source compares encoded strings.
* The `id` column of `logFilters` (and `factories`) is a deterministic
  collision-free hash of the fragment tuple; the embedding uses the
  fragment tuple itself as the id, which is faithful up to injectivity
  of the hash.
* Hex strings (addresses, hashes, topics, log data) are Lean `String`s.
* The async generators (`getFactoryChildAddresses`, `getLogEvents`) are
  embedded as fuel-indexed recursions returning the list of yielded
  pages; callers use fuel large enough that the fuel case is never hit
  for positive page sizes.
* Pass-through block/transaction header columns that no query predicate,
  ordering, cursor or claim inspects (gas fields, roots, signatures,
  miner, ...) are elided from the row records; every column that any
  modelled operation reads is present.
-/

/-! ### Rows and the store -/

/-- Row of the `blocks` table (columns read by the modelled operations:
`hash`, `chainId`, `number`, `timestamp`, `parentHash`). -/
structure BlockRow where
  hash : String
  chainId : Nat
  number : Nat
  timestamp : Nat
  parentHash : String
deriving DecidableEq, Repr

/-- Row of the `transactions` table (columns read by the modelled
operations: `hash`, `chainId`, `blockHash`, `blockNumber`). -/
structure TxRow where
  hash : String
  chainId : Nat
  blockHash : String
  blockNumber : Nat
deriving DecidableEq, Repr

/-- Row of the `logs` table. -/
structure LogRow where
  id : String
  chainId : Nat
  address : String
  blockHash : String
  blockNumber : Nat
  data : String
  logIndex : Nat
  topic0 : Option String
  topic1 : Option String
  topic2 : Option String
  topic3 : Option String
  transactionHash : String
  transactionIndex : Nat
deriving DecidableEq, Repr

/-- A fully-bound log filter fragment; doubles as the `logFilters` table
row and (being a collision-free determination of the source's hash id)
as the `logFilterId` foreign key. -/
structure LogFilterFragment where
  chainId : Nat
  address : Option String
  topic0 : Option String
  topic1 : Option String
  topic2 : Option String
  topic3 : Option String
deriving DecidableEq, Repr

/-- Row of the `logFilterIntervals` table.  The table has an autoincrement
primary key and no uniqueness constraint, so duplicates are representable;
the list keeps them. -/
structure LogFilterIntervalRow where
  logFilterId : LogFilterFragment
  startBlock : Nat
  endBlock : Nat
deriving DecidableEq, Repr

/-- A factory fragment; doubles as the `factories` table row and the
`factoryId` foreign key. -/
structure FactoryFragment where
  chainId : Nat
  address : String
  eventSelector : String
  childAddressLocation : String
  topic0 : Option String
  topic1 : Option String
  topic2 : Option String
  topic3 : Option String
deriving DecidableEq, Repr

/-- Row of the `factoryLogFilterIntervals` table. -/
structure FactoryIntervalRow where
  factoryId : FactoryFragment
  startBlock : Nat
  endBlock : Nat
deriving DecidableEq, Repr

/-- Row of the `rpcRequestResults` table. -/
structure RpcRequestRow where
  request : String
  blockNumber : Nat
  chainId : Nat
  result : String
deriving DecidableEq, Repr

/-- The sync store state: one list per table. -/
structure SyncStore where
  blocks : List BlockRow
  transactions : List TxRow
  logs : List LogRow
  logFilters : List LogFilterFragment
  logFilterIntervals : List LogFilterIntervalRow
  factories : List FactoryFragment
  factoryLogFilterIntervals : List FactoryIntervalRow
  rpcRequestResults : List RpcRequestRow
deriving DecidableEq, Repr

/-- The empty store. -/
def SyncStore.empty : SyncStore :=
  ⟨[], [], [], [], [], [], [], []⟩

/-! ### String helpers (SQL semantics) -/

/-- SQLite `substring(s, start, len)`: `len` characters of `s` beginning
at 1-based position `start`. -/
def sqlSubstring (s : String) (start len : Nat) : String :=
  String.mk ((s.data.drop (start - 1)).take len)

/-- Decimal parse of a character list; `none` on any non-digit.  Used to
embed JavaScript `Number(...)` on the digit suffix of `"offset<K>"`. -/
def parseDigits (cs : List Char) : Option Nat :=
  cs.foldl
    (fun acc c =>
      match acc with
      | none => none
      | some n => if c.isDigit then some (n * 10 + (c.toNat - 48)) else none)
    (some 0)

/-- Whether a string starts with `"offset"` (`childAddressLocation.startsWith("offset")`). -/
def locIsOffset (s : String) : Bool :=
  decide (s.data.take 6 = "offset".data)

/-- Field reference `sql.ref(childAddressLocation)` for the topic case. -/
def topicRef (loc : String) (lg : LogRow) : Option String :=
  if loc = "topic1" then lg.topic1
  else if loc = "topic2" then lg.topic2
  else if loc = "topic3" then lg.topic3
  else none

/-- The child-address select expression of
`buildFactoryChildAddressSelectExpression`, applied to a log row.
For `"offset<K>"` the source computes
`'0x' || substring(data, 2 + 12*2 + K*2 + 1, 20*2)`; for a topic location
it computes `'0x' || substring(topicN, 2 + 12*2 + 1, 20*2)` (NULL topic
propagates to a NULL result, embedded as `none`). -/
def buildFactoryChildAddress (childAddressLocation : String) (lg : LogRow) :
    Option String :=
  if locIsOffset childAddressLocation then
    let childAddressOffset := (parseDigits (childAddressLocation.data.drop 6)).getD 0
    some ("0x" ++ sqlSubstring lg.data (2 + 12 * 2 + childAddressOffset * 2 + 1) (20 * 2))
  else
    (topicRef childAddressLocation lg).map
      (fun t => "0x" ++ sqlSubstring t (2 + 12 * 2 + 1) (20 * 2))

/-! ### Interval algebra

Modelled from the spec: the source's `intervalUnion` and
`intervalIntersectionMany` live in `@/utils/interval.js`, which is not
among the provided source files; section 4.2 of the spec defines them. -/

/-- Insertion step of sorting by a boolean "less or equal". -/
def insertBy (le : α → α → Bool) (x : α) : List α → List α
  | [] => [x]
  | y :: ys => if le x y then x :: y :: ys else y :: insertBy le x ys

/-- Insertion sort by a boolean "less or equal" (stable, structural
recursion so that concrete runs reduce in the kernel). -/
def sortBy (le : α → α → Bool) : List α → List α
  | [] => []
  | x :: xs => insertBy le x (sortBy le xs)

/-- Ordering of closed intervals by start point. -/
def intervalLe (a b : Nat × Nat) : Bool :=
  a.1 ≤ b.1

/-- Push an interval onto an already-canonical list whose starts are all
at least `a`, absorbing every interval it overlaps or touches. -/
def insertMerge (a b : Nat) : List (Nat × Nat) → List (Nat × Nat)
  | [] => [(a, b)]
  | (c, d) :: tail =>
    if c ≤ b + 1 then insertMerge a (max b d) tail
    else (a, b) :: (c, d) :: tail

/-- Sweep over a start-sorted interval list, merging every group of
overlapping or touching intervals (structural recursion so that concrete
runs reduce in the kernel). -/
def mergeSweep : List (Nat × Nat) → List (Nat × Nat)
  | [] => []
  | (a, b) :: rest => insertMerge a b (mergeSweep rest)

/-- Modelled from the spec: `intervalUnion` (section 4.2) returns the
unique minimal list of disjoint, non-touching closed intervals with the
same union as the input; touching intervals merge. -/
def intervalUnion (ivls : List (Nat × Nat)) : List (Nat × Nat) :=
  mergeSweep (sortBy intervalLe ivls)

/-- Pairwise intersection of two unioned interval lists. -/
def intervalIntersect (as bs : List (Nat × Nat)) : List (Nat × Nat) :=
  intervalUnion
    (as.flatMap (fun a =>
      bs.filterMap (fun b =>
        let lo := max a.1 b.1
        let hi := min a.2 b.2
        if lo ≤ hi then some (lo, hi) else none)))

/-- Modelled from the spec: `intervalIntersectionMany` (section 4.2)
returns the intersection of several already-unioned interval lists. -/
def intervalIntersectionMany : List (List (Nat × Nat)) → List (Nat × Nat)
  | [] => []
  | l :: ls => ls.foldl intervalIntersect (intervalUnion l)

/-- A point is covered by an interval list. -/
def covered (x : Nat) (l : List (Nat × Nat)) : Prop :=
  ∃ iv ∈ l, iv.1 ≤ x ∧ x ≤ iv.2

instance (x : Nat) (l : List (Nat × Nat)) : Decidable (covered x l) := by
  unfold covered; infer_instance

/-! ### Filter criteria and fragments

Modelled from the spec: `buildLogFilterFragments` lives in
`@/utils/fragments.js`, which is not among the provided source files;
section 4.3 of the spec defines the cartesian fragment expansion. -/

/-- One slot of a user criterion: absent, a scalar, or an array. -/
inductive ValueSpec where
  | null : ValueSpec
  | single : String → ValueSpec
  | many : List String → ValueSpec
deriving DecidableEq, Repr

/-- User-supplied log filter criteria (`address` slot plus up to four
topic slots; missing trailing topics are `ValueSpec.null`). -/
structure LogFilterCriteria where
  address : ValueSpec
  topics : List ValueSpec
deriving DecidableEq, Repr

/-- User-supplied factory criteria. -/
structure FactoryCriteria where
  address : String
  eventSelector : String
  childAddressLocation : String
  topics : List ValueSpec
deriving DecidableEq, Repr

/-- The options contributed by one slot to the cartesian product. -/
def slotOptions : ValueSpec → List (Option String)
  | ValueSpec.null => [none]
  | ValueSpec.single a => [some a]
  | ValueSpec.many l => l.map some

/-- Topic slot `i` of a criterion (`topics[i] ?? null`). -/
def topicSlot (topics : List ValueSpec) (i : Nat) : ValueSpec :=
  topics.getD i ValueSpec.null

/-- Modelled from the spec: `buildLogFilterFragments` (section 4.3)
returns the cartesian product over the non-null slots, one fragment per
combination, with `null` preserved for absent slots. -/
def buildLogFilterFragments (chainId : Nat) (c : LogFilterCriteria) :
    List LogFilterFragment :=
  (slotOptions c.address).flatMap (fun a =>
    (slotOptions (topicSlot c.topics 0)).flatMap (fun t0 =>
      (slotOptions (topicSlot c.topics 1)).flatMap (fun t1 =>
        (slotOptions (topicSlot c.topics 2)).flatMap (fun t2 =>
          (slotOptions (topicSlot c.topics 3)).map (fun t3 =>
            ⟨chainId, a, t0, t1, t2, t3⟩)))))

/-! ### Ingestion (source: `insertLogFilterInterval`, `_insertLogFilterInterval`) -/

/-- Insert with `onConflict(oc => oc.column("hash").doNothing())`. -/
def insertBlockIgnore (rows : List BlockRow) (b : BlockRow) : List BlockRow :=
  if rows.any (fun r => r.hash == b.hash) then rows else rows ++ [b]

/-- Insert a transaction, ignoring a `hash` conflict. -/
def insertTxIgnore (rows : List TxRow) (t : TxRow) : List TxRow :=
  if rows.any (fun r => r.hash == t.hash) then rows else rows ++ [t]

/-- Insert a log, ignoring an `id` conflict. -/
def insertLogIgnore (rows : List LogRow) (lg : LogRow) : List LogRow :=
  if rows.any (fun r => r.id == lg.id) then rows else rows ++ [lg]

/-- Upsert of a `logFilters` fragment row
(`onConflict(oc => oc.doUpdateSet(fragment))`): with the tuple as id, a
conflicting upsert rewrites the row with identical values, so the table
is unchanged when the fragment is already present. -/
def upsertLogFilter (rows : List LogFilterFragment) (f : LogFilterFragment) :
    List LogFilterFragment :=
  if rows.contains f then rows else rows ++ [f]

/-- Helper `_insertLogFilterInterval`: for every fragment of every given
filter, upsert the fragment row and append one interval row (no merging
happens here; the source inserts the raw `(logFilterId, startBlock,
endBlock)` row unconditionally). -/
def insertLogFilterIntervalRows (s : SyncStore) (chainId : Nat)
    (logFilters : List LogFilterCriteria) (startBlock endBlock : Nat) :
    SyncStore :=
  ((logFilters.map (buildLogFilterFragments chainId)).flatten).foldl
    (fun acc frag =>
      { acc with
        logFilters := upsertLogFilter acc.logFilters frag
        logFilterIntervals :=
          acc.logFilterIntervals ++ [⟨frag, startBlock, endBlock⟩] })
    s

/-- `insertLogFilterInterval`: one transaction that inserts the block,
transactions and logs (each ignoring key conflicts, with the given
`chainId` stamped on) and then records the interval for every fragment
of the filter via `_insertLogFilterInterval`. -/
def insertLogFilterInterval (s : SyncStore) (chainId : Nat)
    (logFilter : LogFilterCriteria) (block : BlockRow) (txs : List TxRow)
    (lgs : List LogRow) (startBlock endBlock : Nat) : SyncStore :=
  let s1 := { s with blocks := insertBlockIgnore s.blocks { block with chainId := chainId } }
  let s2 := { s1 with
    transactions := txs.foldl (fun rows (t : TxRow) => insertTxIgnore rows { t with chainId := chainId }) s1.transactions }
  let s3 := { s2 with
    logs := lgs.foldl (fun rows (lg : LogRow) => insertLogIgnore rows { lg with chainId := chainId }) s2.logs }
  insertLogFilterIntervalRows s3 chainId [logFilter] startBlock endBlock

/-! ### Coverage query (source: `getLogFilterIntervals`) -/

/-- One merge transaction of `getLogFilterIntervals`: upsert the fragment
row, delete the fragment's interval rows (returning them), compute the
`intervalUnion`, and reinsert the merged rows. -/
def mergeFragmentIntervals (s : SyncStore) (frag : LogFilterFragment) :
    SyncStore :=
  let existingIntervalRows := s.logFilterIntervals.filter (fun r => r.logFilterId == frag)
  let remaining := s.logFilterIntervals.filter (fun r => !(r.logFilterId == frag))
  let mergedIntervals :=
    intervalUnion (existingIntervalRows.map (fun r => (r.startBlock, r.endBlock)))
  { s with
    logFilters := upsertLogFilter s.logFilters frag
    logFilterIntervals :=
      remaining ++ mergedIntervals.map (fun iv => ⟨frag, iv.1, iv.2⟩) }

/-- The join condition of the `logFilterFragments` VALUES CTE against a
stored `logFilters` row `g`:
`(g.address IS NULL OR fragmentAddress = g.address)` and likewise for
each topic, plus the `WHERE chainId = ?` on the joined `logFilters` row.
A SQL `=` against a NULL fragment column is not satisfied. -/
def fragmentRowJoin (f g : LogFilterFragment) (chainId : Nat) : Bool :=
  (g.address == none || (f.address.isSome && f.address == g.address)) &&
  (g.topic0 == none || (f.topic0.isSome && f.topic0 == g.topic0)) &&
  (g.topic1 == none || (f.topic1.isSome && f.topic1 == g.topic1)) &&
  (g.topic2 == none || (f.topic2.isSome && f.topic2 == g.topic2)) &&
  (g.topic3 == none || (f.topic3.isSome && f.topic3 == g.topic3)) &&
  g.chainId == chainId

/-- The interval rows gathered for one fragment by the big select of
`getLogFilterIntervals`: interval rows whose (left-joined) `logFilters`
row exists and satisfies the fragment join condition. -/
def gatherFragmentIntervals (s : SyncStore) (chainId : Nat)
    (f : LogFilterFragment) : List (Nat × Nat) :=
  (s.logFilterIntervals.filter (fun r =>
      s.logFilters.contains r.logFilterId &&
      fragmentRowJoin f r.logFilterId chainId)).map
    (fun r => (r.startBlock, r.endBlock))

/-- `getLogFilterIntervals`: first merge each fragment's rows to
canonical form, then gather each fragment's intervals and return the
`intervalIntersectionMany`.  Returns the value together with the
post-merge store (the merge phase mutates the table). -/
def getLogFilterIntervals (s : SyncStore) (chainId : Nat)
    (logFilter : LogFilterCriteria) : List (Nat × Nat) × SyncStore :=
  let fragments := buildLogFilterFragments chainId logFilter
  let merged := fragments.foldl mergeFragmentIntervals s
  (intervalIntersectionMany
      (fragments.map (gatherFragmentIntervals merged chainId)),
    merged)

/-! ### Factory child addresses (source: `getFactoryChildAddresses`) -/

/-- The rows satisfying the base query of `getFactoryChildAddresses`
(`chainId`, emitter `address`, `topic0 = eventSelector`,
`blockNumber <= upToBlockNumber`), enumerated in ascending `blockNumber`
order (the order the spec ascribes to the query). -/
def factoryChildLogs (s : SyncStore) (chainId : Nat) (upToBlockNumber : Nat)
    (factory : FactoryCriteria) : List LogRow :=
  sortBy (fun a b => a.blockNumber ≤ b.blockNumber)
    (s.logs.filter (fun lg =>
      lg.chainId == chainId && lg.address == factory.address &&
      lg.topic0 == some factory.eventSelector &&
      lg.blockNumber ≤ upToBlockNumber))

/-- The page loop of `getFactoryChildAddresses`: apply
`blockNumber > cursor` when a cursor exists, take `pageSize` rows, set
the cursor to the last row's `blockNumber`, yield the page when
non-empty, stop when a page comes back short. -/
def getFactoryChildAddressesGo (rows : List LogRow)
    (childAddressLocation : String) (pageSize : Nat) (cursor : Option Nat) :
    Nat → List (List (Option String))
  | 0 => []
  | fuel + 1 =>
    let batch :=
      (match cursor with
        | none => rows
        | some c => rows.filter (fun r => c < r.blockNumber)).take pageSize
    let cursor' :=
      match batch.getLast? with
      | some r => some r.blockNumber
      | none => cursor
    let rest :=
      if batch.length < pageSize then []
      else getFactoryChildAddressesGo rows childAddressLocation pageSize cursor' fuel
    if batch.length == 0 then rest
    else batch.map (buildFactoryChildAddress childAddressLocation) :: rest

/-- `getFactoryChildAddresses` as the list of yielded pages of derived
child addresses. -/
def getFactoryChildAddresses (s : SyncStore) (chainId : Nat)
    (upToBlockNumber : Nat) (factory : FactoryCriteria) (pageSize : Nat) :
    List (List (Option String)) :=
  let rows := factoryChildLogs s chainId upToBlockNumber factory
  getFactoryChildAddressesGo rows factory.childAddressLocation pageSize none
    (rows.length + 1)

/-! ### Reorg truncation (source: `deleteRealtimeData`) -/

/-- The correlated subquery
`(SELECT chainId FROM logFilters WHERE id = logFilterId LIMIT 1) = chainId`:
true exactly when the interval row's filter exists and lives on the
given chain (a NULL subquery result satisfies no equality). -/
def intervalOnChain (filters : List LogFilterFragment)
    (r : LogFilterIntervalRow) (chainId : Nat) : Bool :=
  match filters.find? (fun g => g == r.logFilterId) with
  | some g => g.chainId == chainId
  | none => false

/-- The factory-side analogue of `intervalOnChain`. -/
def factoryIntervalOnChain (facs : List FactoryFragment)
    (r : FactoryIntervalRow) (chainId : Nat) : Bool :=
  match facs.find? (fun g => g == r.factoryId) with
  | some g => g.chainId == chainId
  | none => false

/-- `deleteRealtimeData(chainId, fromBlock)`: delete blocks,
transactions, logs and rpc cache rows of the chain above `fromBlock`;
delete the chain's interval rows with `startBlock > fromBlock` and clamp
the remaining rows' `endBlock` down to `fromBlock`. -/
def deleteRealtimeData (s : SyncStore) (chainId : Nat) (fromBlock : Nat) :
    SyncStore :=
  { s with
    blocks := s.blocks.filter (fun b => !(b.chainId == chainId && fromBlock < b.number))
    transactions :=
      s.transactions.filter (fun t => !(t.chainId == chainId && fromBlock < t.blockNumber))
    logs := s.logs.filter (fun lg => !(lg.chainId == chainId && fromBlock < lg.blockNumber))
    rpcRequestResults :=
      s.rpcRequestResults.filter (fun r => !(r.chainId == chainId && fromBlock < r.blockNumber))
    logFilterIntervals :=
      (s.logFilterIntervals.filter (fun r =>
          !(intervalOnChain s.logFilters r chainId && fromBlock < r.startBlock))).map
        (fun r =>
          if intervalOnChain s.logFilters r chainId && fromBlock < r.endBlock then
            { r with endBlock := fromBlock }
          else r)
    factoryLogFilterIntervals :=
      (s.factoryLogFilterIntervals.filter (fun r =>
          !(factoryIntervalOnChain s.factories r chainId && fromBlock < r.startBlock))).map
        (fun r =>
          if factoryIntervalOnChain s.factories r chainId && fromBlock < r.endBlock then
            { r with endBlock := fromBlock }
          else r) }

/-! ### Factory intervals (source: `insertFactoryLogFilterInterval`,
`insertRealtimeInterval`, `getFactoryLogFilterIntervals`) -/

/-- Modelled from the spec: `buildFactoryFragments` (section 4.3) expands
a factory criterion over its topic slots like a log filter, with
`address`, `eventSelector` and `childAddressLocation` always bound. -/
def buildFactoryFragments (chainId : Nat) (c : FactoryCriteria) :
    List FactoryFragment :=
  (slotOptions (topicSlot c.topics 0)).flatMap (fun t0 =>
    (slotOptions (topicSlot c.topics 1)).flatMap (fun t1 =>
      (slotOptions (topicSlot c.topics 2)).flatMap (fun t2 =>
        (slotOptions (topicSlot c.topics 3)).map (fun t3 =>
          ⟨chainId, c.address, c.eventSelector, c.childAddressLocation,
            t0, t1, t2, t3⟩))))

/-- Upsert of a `factories` fragment row
(`onConflict(oc => oc.doUpdateSet(fragment))`). -/
def upsertFactory (rows : List FactoryFragment) (f : FactoryFragment) :
    List FactoryFragment :=
  if rows.contains f then rows else rows ++ [f]

/-- Helper `_insertFactoryLogFilterInterval`: for every fragment of every
given factory, upsert the fragment row and append one interval row (no
merging happens here either). -/
def insertFactoryIntervalRows (s : SyncStore) (chainId : Nat)
    (factories : List FactoryCriteria) (startBlock endBlock : Nat) :
    SyncStore :=
  ((factories.map (buildFactoryFragments chainId)).flatten).foldl
    (fun acc frag =>
      { acc with
        factories := upsertFactory acc.factories frag
        factoryLogFilterIntervals :=
          acc.factoryLogFilterIntervals ++ [⟨frag, startBlock, endBlock⟩] })
    s

/-- `insertFactoryLogFilterInterval`: one transaction that inserts the
block, transactions and logs (each ignoring key conflicts) and then
records the interval for every fragment of the factory via
`_insertFactoryLogFilterInterval`. -/
def insertFactoryLogFilterInterval (s : SyncStore) (chainId : Nat)
    (factory : FactoryCriteria) (block : BlockRow) (txs : List TxRow)
    (lgs : List LogRow) (startBlock endBlock : Nat) : SyncStore :=
  let s1 := { s with blocks := insertBlockIgnore s.blocks { block with chainId := chainId } }
  let s2 := { s1 with
    transactions := txs.foldl (fun rows (t : TxRow) => insertTxIgnore rows { t with chainId := chainId }) s1.transactions }
  let s3 := { s2 with
    logs := lgs.foldl (fun rows (lg : LogRow) => insertLogIgnore rows { lg with chainId := chainId }) s2.logs }
  insertFactoryIntervalRows s3 chainId [factory] startBlock endBlock

/-- `insertRealtimeInterval`: records the interval via
`_insertLogFilterInterval` for every log filter and for every factory
re-keyed as the log filter `(address, [eventSelector])`, and via
`_insertFactoryLogFilterInterval` for every factory. -/
def insertRealtimeInterval (s : SyncStore) (chainId : Nat)
    (logFilters : List LogFilterCriteria) (factories : List FactoryCriteria)
    (startBlock endBlock : Nat) : SyncStore :=
  insertFactoryIntervalRows
    (insertLogFilterIntervalRows s chainId
      (logFilters ++ factories.map (fun f =>
        ⟨ValueSpec.single f.address, [ValueSpec.single f.eventSelector]⟩))
      startBlock endBlock)
    chainId factories startBlock endBlock

/-- One merge transaction of `getFactoryLogFilterIntervals`: upsert the
factory fragment row, delete the fragment's interval rows (returning
them), compute the `intervalUnion`, and reinsert the merged rows. -/
def mergeFactoryFragmentIntervals (s : SyncStore) (frag : FactoryFragment) :
    SyncStore :=
  let existingIntervals := s.factoryLogFilterIntervals.filter (fun r => r.factoryId == frag)
  let remaining := s.factoryLogFilterIntervals.filter (fun r => !(r.factoryId == frag))
  let mergedIntervals :=
    intervalUnion (existingIntervals.map (fun r => (r.startBlock, r.endBlock)))
  { s with
    factories := upsertFactory s.factories frag
    factoryLogFilterIntervals :=
      remaining ++ mergedIntervals.map (fun iv => ⟨frag, iv.1, iv.2⟩) }

/-- The join condition of the `factoryFilterFragments` VALUES CTE against
a stored `factories` row `g`: equality on `address`, `eventSelector` and
`childAddressLocation` (all non-null columns), the per-topic
null-subsumption disjunctions, and the `WHERE chainId = ?` on the joined
`factories` row. -/
def factoryFragmentRowJoin (f g : FactoryFragment) (chainId : Nat) : Bool :=
  f.address == g.address && f.eventSelector == g.eventSelector &&
  f.childAddressLocation == g.childAddressLocation &&
  (g.topic0 == none || (f.topic0.isSome && f.topic0 == g.topic0)) &&
  (g.topic1 == none || (f.topic1.isSome && f.topic1 == g.topic1)) &&
  (g.topic2 == none || (f.topic2.isSome && f.topic2 == g.topic2)) &&
  (g.topic3 == none || (f.topic3.isSome && f.topic3 == g.topic3)) &&
  g.chainId == chainId

/-- The interval rows gathered for one factory fragment by the big select
of `getFactoryLogFilterIntervals`. -/
def gatherFactoryFragmentIntervals (s : SyncStore) (chainId : Nat)
    (f : FactoryFragment) : List (Nat × Nat) :=
  (s.factoryLogFilterIntervals.filter (fun r =>
      s.factories.contains r.factoryId &&
      factoryFragmentRowJoin f r.factoryId chainId)).map
    (fun r => (r.startBlock, r.endBlock))

/-- `getFactoryLogFilterIntervals`: first merge each fragment's rows to
canonical form, then gather each fragment's intervals and return the
`intervalIntersectionMany`, together with the post-merge store. -/
def getFactoryLogFilterIntervals (s : SyncStore) (chainId : Nat)
    (factory : FactoryCriteria) : List (Nat × Nat) × SyncStore :=
  let fragments := buildFactoryFragments chainId factory
  let merged := fragments.foldl mergeFactoryFragmentIntervals s
  (intervalIntersectionMany
      (fragments.map (gatherFactoryFragmentIntervals merged chainId)),
    merged)

/-! ### Event iterator (source: `getLogEvents`) -/

/-- A `logFilters` element of a `getLogEvents` request.  `fromBlock`,
`toBlock` and `includeEventSelectors` are optional exactly as in the
source signature. -/
structure LogFilterRequest where
  name : String
  chainId : Nat
  criteria : LogFilterCriteria
  fromBlock : Option Nat
  toBlock : Option Nat
  includeEventSelectors : Option (List String)
deriving DecidableEq, Repr

/-- A `factories` element of a `getLogEvents` request. -/
structure FactoryRequest where
  name : String
  chainId : Nat
  criteria : FactoryCriteria
  fromBlock : Option Nat
  toBlock : Option Nat
  includeEventSelectors : Option (List String)
deriving DecidableEq, Repr

/-- A fully joined event row: the event source name, the log, its block
(present, since the base query's timestamp bounds discard rows whose
left-joined block is NULL) and the left-joined transaction. -/
structure EventRow where
  eventSource_name : String
  log : LogRow
  block : BlockRow
  tx : Option TxRow
deriving DecidableEq, Repr

/-- The four-part pagination key `(timestamp, chainId, blockNumber,
logIndex)`. -/
abbrev EventKey := Nat × Nat × Nat × Nat

/-- The ordering key of a joined row. -/
def rowKey (r : EventRow) : EventKey :=
  (r.block.timestamp, r.log.chainId, r.block.number, r.log.logIndex)

/-- One address comparison group of `buildLogFilterCmprs`: a length-one
array collapses to its element; an array becomes an OR of equalities;
`null` adds no clause. -/
def addressCmpr (spec : ValueSpec) (logAddress : String) : Bool :=
  match spec with
  | ValueSpec.null => true
  | ValueSpec.single a => logAddress == a
  | ValueSpec.many [a] => logAddress == a
  | ValueSpec.many l => l.any (fun a => logAddress == a)

/-- One topic comparison group of `buildLogFilterCmprs`; a stored NULL
topic satisfies no SQL equality. -/
def topicCmpr (spec : ValueSpec) (logTopic : Option String) : Bool :=
  match spec with
  | ValueSpec.null => true
  | ValueSpec.single t => logTopic == some t
  | ValueSpec.many [t] => logTopic == some t
  | ValueSpec.many l => l.any (fun t => logTopic == some t)

/-- The `fromBlock` clause: added only when the value is truthy
(`if (logFilter.fromBlock)`), so an absent bound and a `0` bound both
add nothing. -/
def fromBlockCmpr (fromBlock : Option Nat) (blockNumber : Nat) : Bool :=
  if fromBlock.getD 0 ≠ 0 then fromBlock.getD 0 ≤ blockNumber else true

/-- The `toBlock` clause, same truthiness rule. -/
def toBlockCmpr (toBlock : Option Nat) (blockNumber : Nat) : Bool :=
  if toBlock.getD 0 ≠ 0 then blockNumber ≤ toBlock.getD 0 else true

/-- `buildLogFilterCmprs` as a predicate on a candidate
`(eventSource_name, log, block)` row. -/
def logFilterCmprs (flt : LogFilterRequest) (nm : String) (lg : LogRow)
    (blk : BlockRow) : Bool :=
  nm == flt.name && lg.chainId == flt.chainId &&
  addressCmpr flt.criteria.address lg.address &&
  topicCmpr (topicSlot flt.criteria.topics 0) lg.topic0 &&
  topicCmpr (topicSlot flt.criteria.topics 1) lg.topic1 &&
  topicCmpr (topicSlot flt.criteria.topics 2) lg.topic2 &&
  topicCmpr (topicSlot flt.criteria.topics 3) lg.topic3 &&
  fromBlockCmpr flt.fromBlock blk.number &&
  toBlockCmpr flt.toBlock blk.number

/-- The factory child-address subquery of `buildFactoryCmprs`
(`SELECT childAddress FROM logs WHERE chainId = ? AND address = ? AND
topic0 = eventSelector` — note: no block bound in the subquery). -/
def factoryChildAddressSubquery (s : SyncStore) (fac : FactoryRequest) :
    List (Option String) :=
  (s.logs.filter (fun lg =>
      lg.chainId == fac.chainId && lg.address == fac.criteria.address &&
      lg.topic0 == some fac.criteria.eventSelector)).map
    (buildFactoryChildAddress fac.criteria.childAddressLocation)

/-- `buildFactoryCmprs` as a predicate on a candidate row
(`logs.address IN (subquery)`; a NULL subquery value matches nothing). -/
def factoryCmprs (s : SyncStore) (fac : FactoryRequest) (nm : String)
    (lg : LogRow) (blk : BlockRow) : Bool :=
  nm == fac.name && lg.chainId == fac.chainId &&
  (factoryChildAddressSubquery s fac).contains (some lg.address) &&
  fromBlockCmpr fac.fromBlock blk.number &&
  toBlockCmpr fac.toBlock blk.number

/-- The `includeEventSelectors` clause (an OR of `topic0` equalities),
added only when the field is present. -/
def includeSelectorsCmpr (sels : Option (List String))
    (logTopic0 : Option String) : Bool :=
  match sels with
  | none => true
  | some l => l.any (fun t => logTopic0 == some t)

/-- Left-joined block of a log (`blocks.hash = logs.blockHash`). -/
def findBlock (s : SyncStore) (blockHash : String) : Option BlockRow :=
  s.blocks.find? (fun b => b.hash == blockHash)

/-- Left-joined transaction of a log
(`transactions.hash = logs.transactionHash`). -/
def findTx (s : SyncStore) (transactionHash : String) : Option TxRow :=
  s.transactions.find? (fun t => t.hash == transactionHash)

/-- The event source names of a request, in source order. -/
def eventSourceNames (logFilters : List LogFilterRequest)
    (factories : List FactoryRequest) : List String :=
  logFilters.map (fun f => f.name) ++ factories.map (fun f => f.name)

/-- The joined rows matched by a `getLogEvents` request: the cross join
of the `eventSources` VALUES CTE with `logs` (left-joined to `blocks`
and `transactions`), restricted to the timestamp window and to the OR
of the per-filter and per-factory comparison groups.  `includeSel`
distinguishes the page query (selectors applied) from the counts query
(selectors omitted). -/
def matchedRows (includeSel : Bool) (s : SyncStore)
    (fromTimestamp toTimestamp : Nat) (logFilters : List LogFilterRequest)
    (factories : List FactoryRequest) : List EventRow :=
  (eventSourceNames logFilters factories).flatMap (fun nm =>
    s.logs.filterMap (fun lg =>
      match findBlock s lg.blockHash with
      | none => none
      | some blk =>
        if (fromTimestamp ≤ blk.timestamp && blk.timestamp ≤ toTimestamp) &&
            (logFilters.any (fun flt =>
                logFilterCmprs flt nm lg blk &&
                (!includeSel || includeSelectorsCmpr flt.includeEventSelectors lg.topic0)) ||
              factories.any (fun fac =>
                factoryCmprs s fac nm lg blk &&
                (!includeSel || includeSelectorsCmpr fac.includeEventSelectors lg.topic0)))
        then some ⟨nm, lg, blk, findTx s lg.transactionHash⟩
        else none))

/-- One row of the per-call counts metadata. -/
structure CountRow where
  eventSourceName : String
  selector : Option String
  count : Nat
deriving DecidableEq, Repr

/-- The preamble counts query: `count(*)` grouped by
`(eventSource_name, topic0)` over the matched rows with the
`includeEventSelectors` clause omitted. -/
def eventCounts (s : SyncStore) (fromTimestamp toTimestamp : Nat)
    (logFilters : List LogFilterRequest) (factories : List FactoryRequest) :
    List CountRow :=
  let rows := matchedRows false s fromTimestamp toTimestamp logFilters factories
  ((rows.map (fun r => (r.eventSource_name, r.log.topic0))).dedup).map
    (fun k =>
      ⟨k.1, k.2,
        (rows.filter (fun r =>
            r.eventSource_name == k.1 && r.log.topic0 == k.2)).length⟩)

/-- Lookup of a `(eventSourceName, selector)` group in a counts list
(0 when the group is absent). -/
def countLookup (cs : List CountRow) (nm : String) (sel : Option String) :
    Nat :=
  match cs.find? (fun c => c.eventSourceName == nm && c.selector == sel) with
  | some c => c.count
  | none => 0

/-- The nested `AND`/`OR` cursor condition of `getLogEvents`, exactly as
the source builds it from the saved
`(timestamp, chainId, blockNumber, logIndex)`. -/
def cursorCondition (cursor : EventKey) (r : EventRow) : Bool :=
  decide (cursor.1 ≤ r.block.timestamp) &&
  (decide (cursor.1 < r.block.timestamp) ||
    (decide (cursor.2.1 ≤ r.log.chainId) &&
      (decide (cursor.2.1 < r.log.chainId) ||
        (decide (cursor.2.2.1 ≤ r.block.number) &&
          (decide (cursor.2.2.1 < r.block.number) ||
            decide (cursor.2.2.2 < r.log.logIndex))))))

/-- Strict lexicographic order on pagination keys. -/
def keyLt (a b : EventKey) : Bool :=
  decide (a.1 < b.1) ||
  (a.1 == b.1 &&
    (decide (a.2.1 < b.2.1) ||
      (a.2.1 == b.2.1 &&
        (decide (a.2.2.1 < b.2.2.1) ||
          (a.2.2.1 == b.2.2.1 && decide (a.2.2.2 < b.2.2.2))))))

/-- Total preorder on rows used for the `ORDER BY` of `getLogEvents`. -/
def rowLe (a b : EventRow) : Bool :=
  !(keyLt (rowKey b) (rowKey a))

/-- One yielded page of `getLogEvents` (the `metadata` object is
flattened into the two fields `pageEndsAtTimestamp` and `counts`). -/
structure LogEventsPage where
  events : List EventRow
  pageEndsAtTimestamp : Nat
  counts : List CountRow
deriving DecidableEq, Repr

/-- The query rows visible past a cursor. -/
def cursorFilter (rows : List EventRow) : Option EventKey → List EventRow
  | none => rows
  | some c => rows.filter (fun r => cursorCondition c r)

/-- Cursor update at the end of a page: the last row's key, or the old
cursor when the page is empty. -/
def pageCursor (cursor : Option EventKey) (pageRows : List EventRow) :
    Option EventKey :=
  match pageRows.getLast? with
  | some r => some (rowKey r)
  | none => cursor

/-- The `pageEndsAtTimestamp` metadata field: the last row's block
timestamp, or `toTimestamp` when the page is empty. -/
def pageEndTimestamp (toTimestamp : Nat) (pageRows : List EventRow) : Nat :=
  match pageRows.getLast? with
  | some r => r.block.timestamp
  | none => toTimestamp

/-- The page loop of `getLogEvents`: take a page of `pageSize` rows past
the cursor, advance the cursor to the last row's key, yield the page
(with `pageEndsAtTimestamp` the last row's timestamp, or `toTimestamp`
for an empty page, and the constant preamble counts), and stop once a
page comes back short. -/
def getLogEventsGo (rows : List EventRow) (pageSize : Nat)
    (counts : List CountRow) (toTimestamp : Nat) (cursor : Option EventKey) :
    Nat → List LogEventsPage
  | 0 => []
  | fuel + 1 =>
    if ((cursorFilter rows cursor).take pageSize).length < pageSize then
      [⟨(cursorFilter rows cursor).take pageSize,
        pageEndTimestamp toTimestamp ((cursorFilter rows cursor).take pageSize),
        counts⟩]
    else
      ⟨(cursorFilter rows cursor).take pageSize,
        pageEndTimestamp toTimestamp ((cursorFilter rows cursor).take pageSize),
        counts⟩ ::
        getLogEventsGo rows pageSize counts toTimestamp
          (pageCursor cursor ((cursorFilter rows cursor).take pageSize)) fuel

/-- `getLogEvents` as the list of yielded pages: the matched rows are
enumerated in the `ORDER BY (timestamp, chainId, blockNumber, logIndex)`
order and paginated by the cursor loop; the counts are computed once. -/
def getLogEvents (s : SyncStore) (fromTimestamp toTimestamp : Nat)
    (logFilters : List LogFilterRequest) (factories : List FactoryRequest)
    (pageSize : Nat) : List LogEventsPage :=
  let rows :=
    sortBy rowLe (matchedRows true s fromTimestamp toTimestamp logFilters factories)
  getLogEventsGo rows pageSize
    (eventCounts s fromTimestamp toTimestamp logFilters factories)
    toTimestamp none (rows.length + 1)

/-! ### Concrete instances used by witnesses and counterexamples -/

/-- Criterion binding topic0 to `"0xa"`. -/
def critSingleA : LogFilterCriteria := ⟨ValueSpec.null, [ValueSpec.single "0xa"]⟩

/-- Criterion binding topic0 to `"0xb"`. -/
def critSingleB : LogFilterCriteria := ⟨ValueSpec.null, [ValueSpec.single "0xb"]⟩

/-- Criterion with `topics: [[A, B]]`, expanding to two fragments. -/
def critPairAB : LogFilterCriteria := ⟨ValueSpec.null, [ValueSpec.many ["0xa", "0xb"]]⟩

/-- Criterion with no address and no topics (a single all-null fragment). -/
def critNone : LogFilterCriteria := ⟨ValueSpec.null, []⟩

/-- A concrete block at height 1, timestamp 100. -/
def blockOne : BlockRow := ⟨"0xb1", 1, 1, 100, "0xb0"⟩

/-- Store after recording `[0,10]` for the fragment of `"0xa"` and
`[5,15]` for the fragment of `"0xb"` (spec scenario S2, first half). -/
def storeS2 : SyncStore :=
  insertLogFilterInterval
    (insertLogFilterInterval SyncStore.empty 1 critSingleA blockOne [] [] 0 10)
    1 critSingleB blockOne [] [] 5 15

/-- Store after recording `[0,10]` for both fragments (spec scenario S2,
second half). -/
def storeS2both : SyncStore :=
  insertLogFilterInterval
    (insertLogFilterInterval SyncStore.empty 1 critSingleA blockOne [] [] 0 10)
    1 critSingleB blockOne [] [] 0 10

/-- Store after ingesting the overlapping intervals `[0,5]` then `[3,8]`
for the same filter. -/
def storeOverlap : SyncStore :=
  insertLogFilterInterval
    (insertLogFilterInterval SyncStore.empty 1 critSingleA blockOne [] [] 0 5)
    1 critSingleA blockOne [] [] 3 8

/-- Store after one `insertLogFilterInterval` call. -/
def storeOnce : SyncStore :=
  insertLogFilterInterval SyncStore.empty 1 critSingleA blockOne [] [] 0 10

/-- Store after replaying the identical call a second time. -/
def storeTwice : SyncStore :=
  insertLogFilterInterval storeOnce 1 critSingleA blockOne [] [] 0 10

/-- Event source `"one"`, matching every chain-1 log. -/
def reqOne : LogFilterRequest := ⟨"one", 1, critNone, none, none, none⟩

/-- Event source `"two"`, also matching every chain-1 log. -/
def reqTwo : LogFilterRequest := ⟨"two", 1, critNone, none, none, none⟩

/-- A log matched by both `reqOne` and `reqTwo`. -/
def logShared : LogRow :=
  ⟨"0xb1-0", 1, "0xa", "0xb1", 1, "0xdd", 0, some "0xt0", none, none, none, "0xtx", 0⟩

/-- Store holding `blockOne` and the shared log. -/
def storeShared : SyncStore :=
  { SyncStore.empty with blocks := [blockOne], logs := [logShared] }

/-- Log data: 12 zero bytes of ABI padding followed by the 20-byte
address `aa…aa`. -/
def dataPadAA : String :=
  "0x000000000000000000000000aaaaaaaaaaaaaaaaaaaaaaaaaaaaaaaaaaaaaaaa"

/-- Log data: 12 zero bytes of ABI padding followed by the 20-byte
address `bb…bb`. -/
def dataPadBB : String :=
  "0x000000000000000000000000bbbbbbbbbbbbbbbbbbbbbbbbbbbbbbbbbbbbbbbb"

/-- A factory whose children are announced at data offset 0. -/
def facChild : FactoryCriteria := ⟨"0xfac", "0xsel", "offset0", []⟩

/-- First factory log (block 7, child `aa…aa`). -/
def logChildA : LogRow :=
  ⟨"0xc1", 1, "0xfac", "0xb1", 7, dataPadAA, 0, some "0xsel", none, none, none, "0xt1", 0⟩

/-- Second factory log in the same block 7 (child `bb…bb`). -/
def logChildB : LogRow :=
  ⟨"0xc2", 1, "0xfac", "0xb1", 7, dataPadBB, 1, some "0xsel", none, none, none, "0xt1", 1⟩

/-- Store holding the two factory logs of block 7. -/
def storeChildren : SyncStore :=
  { SyncStore.empty with logs := [logChildA, logChildB] }

/-- A concrete factory fragment on chain 1. -/
def facFragOne : FactoryFragment :=
  ⟨1, "0xfac", "0xsel", "offset0", none, none, none, none⟩

/-- Store exercised by the reorg-truncation witness: chain-1 rows at
heights 5 and 7 in every table, a log filter interval `[1,10]` and a
factory interval `[8,12]`. -/
def storeReorg : SyncStore :=
  { SyncStore.empty with
    blocks := [⟨"0xr1", 1, 5, 50, "0x"⟩, ⟨"0xr2", 1, 7, 70, "0x"⟩]
    transactions := [⟨"0xt7", 1, "0xr2", 7⟩]
    logs := [⟨"0xl7", 1, "0xa", "0xr2", 7, "0x", 0, none, none, none, none, "0xt7", 0⟩]
    rpcRequestResults := [⟨"req", 7, 1, "res"⟩]
    logFilters := buildLogFilterFragments 1 critSingleA
    factories := [facFragOne]
    logFilterIntervals := (buildLogFilterFragments 1 critSingleA).map (fun f => ⟨f, 1, 10⟩)
    factoryLogFilterIntervals := [⟨facFragOne, 8, 12⟩] }

/-! ### Sorting lemmas -/

/-- Inserting an element permutes the element onto the list. -/
theorem insertBy_perm (le : α → α → Bool) (x : α) :
    ∀ l : List α, (insertBy le x l).Perm (x :: l) := by
  intro l
  induction l with
  | nil => simp [insertBy]
  | cons y ys ih =>
    rw [insertBy]
    cases hb : le x y
    · simp only [Bool.false_eq_true, if_false]
      exact (ih.cons y).trans (List.Perm.swap x y ys)
    · simp

/-- Insertion sort permutes its input. -/
theorem sortBy_perm (le : α → α → Bool) : ∀ l : List α, (sortBy le l).Perm l := by
  intro l
  induction l with
  | nil => simp [sortBy]
  | cons x xs ih => exact (insertBy_perm le x (sortBy le xs)).trans (ih.cons x)

/-- Insertion into a sorted list preserves sortedness, for a transitive
total boolean preorder. -/
theorem insertBy_pairwise (le : α → α → Bool)
    (htrans : ∀ a b c, le a b = true → le b c = true → le a c = true)
    (htotal : ∀ a b, le a b = true ∨ le b a = true) (x : α) :
    ∀ l : List α, l.Pairwise (fun a b => le a b = true) →
      (insertBy le x l).Pairwise (fun a b => le a b = true) := by
  intro l
  induction l with
  | nil => intro _; simp [insertBy]
  | cons y ys ih =>
    intro hl
    rw [List.pairwise_cons] at hl
    rw [insertBy]
    cases hb : le x y
    · simp only [Bool.false_eq_true, if_false, List.pairwise_cons]
      refine ⟨?_, ih hl.2⟩
      intro z hz
      rcases List.mem_cons.mp ((insertBy_perm le x ys).mem_iff.mp hz) with h | h
      · rw [h]
        rcases htotal x y with h2 | h2
        · rw [h2] at hb; exact absurd hb (by simp)
        · exact h2
      · exact hl.1 z h
    · simp only [if_true, List.pairwise_cons]
      refine ⟨?_, hl⟩
      intro z hz
      rcases List.mem_cons.mp hz with h | h
      · subst h; exact hb
      · exact htrans x y z hb (hl.1 z h)

/-- Insertion sort sorts, for a transitive total boolean preorder. -/
theorem sortBy_pairwise (le : α → α → Bool)
    (htrans : ∀ a b c, le a b = true → le b c = true → le a c = true)
    (htotal : ∀ a b, le a b = true ∨ le b a = true) :
    ∀ l : List α, (sortBy le l).Pairwise (fun a b => le a b = true) := by
  intro l
  induction l with
  | nil => simp [sortBy]
  | cons x xs ih => exact insertBy_pairwise le htrans htotal x _ ih

/-! ### Key order lemmas -/

/-- Unfolding of the strict lexicographic key order. -/
theorem keyLt_iff (a b : EventKey) :
    keyLt a b = true ↔
      (a.1 < b.1 ∨ (a.1 = b.1 ∧ (a.2.1 < b.2.1 ∨ (a.2.1 = b.2.1 ∧
        (a.2.2.1 < b.2.2.1 ∨ (a.2.2.1 = b.2.2.1 ∧ a.2.2.2 < b.2.2.2)))))) := by
  simp [keyLt, Bool.and_eq_true, Bool.or_eq_true]

/-- The source's nested cursor condition is exactly "key strictly greater
than the cursor" in the lexicographic order. -/
theorem cursorCondition_eq_keyLt (c : EventKey) (r : EventRow) :
    cursorCondition c r = keyLt c (rowKey r) := by
  rw [Bool.eq_iff_iff]
  rw [keyLt_iff]
  simp only [cursorCondition, rowKey, Bool.and_eq_true, Bool.or_eq_true,
    decide_eq_true_eq]
  omega

/-- Lexicographic strictness is transitive. -/
theorem keyLt_trans {a b c : EventKey} (h1 : keyLt a b = true)
    (h2 : keyLt b c = true) : keyLt a c = true := by
  rw [keyLt_iff] at *
  omega

/-- Lexicographic strictness is irreflexive. -/
theorem keyLt_irrefl (a : EventKey) : keyLt a a ≠ true := by
  simp only [ne_eq, keyLt_iff]
  omega

/-- Lexicographic strictness is asymmetric. -/
theorem keyLt_asymm {a b : EventKey} (h : keyLt a b = true) :
    keyLt b a ≠ true := by
  rw [keyLt_iff] at h
  simp only [ne_eq, keyLt_iff]
  omega

/-- Keys that are unordered in both directions are equal. -/
theorem keyLt_conn {a b : EventKey} (h1 : keyLt a b ≠ true)
    (h2 : keyLt b a ≠ true) : a = b := by
  simp only [ne_eq, keyLt_iff] at h1 h2
  obtain ⟨a1, a2, a3, a4⟩ := a
  obtain ⟨b1, b2, b3, b4⟩ := b
  simp only at h1 h2
  simp only [Prod.mk.injEq]
  omega

/-- Row order unfolding. -/
theorem rowLe_iff (a b : EventRow) :
    rowLe a b = true ↔ keyLt (rowKey b) (rowKey a) ≠ true := by
  simp [rowLe]

/-- Row order is transitive. -/
theorem rowLe_trans (a b c : EventRow) (h1 : rowLe a b = true)
    (h2 : rowLe b c = true) : rowLe a c = true := by
  rw [rowLe_iff] at h1 h2 ⊢
  simp only [ne_eq, keyLt_iff] at h1 h2 ⊢
  omega

/-- Row order is total. -/
theorem rowLe_total (a b : EventRow) : rowLe a b = true ∨ rowLe b a = true := by
  rw [rowLe_iff, rowLe_iff]
  simp only [ne_eq, keyLt_iff]
  omega

/-! ### Pagination lemmas -/

/-- In a pairwise-related list, every element is the last element or is
related to it. -/
theorem pairwise_getLast {α : Type} {P : α → α → Prop} :
    ∀ (l : List α) (h : l ≠ []), l.Pairwise P →
      ∀ x ∈ l, x = l.getLast h ∨ P x (l.getLast h)
  | [], h => absurd rfl h
  | [a], _ => by
    intro _ x hx
    rcases List.mem_singleton.mp hx with rfl
    left
    rfl
  | a :: b :: t, h => by
    intro hp x hx
    have hne : (b :: t) ≠ [] := by simp
    have hlast : (a :: b :: t).getLast h = (b :: t).getLast hne :=
      List.getLast_cons hne
    rw [List.pairwise_cons] at hp
    rcases List.mem_cons.mp hx with rfl | hx'
    · right
      rw [hlast]
      exact hp.1 _ (List.getLast_mem hne)
    · rw [hlast]
      exact pairwise_getLast (b :: t) hne hp.2 x hx'

/-- Filtering a strictly sorted list for keys above the last element of
its length-`n` prefix leaves exactly the corresponding suffix. -/
theorem filter_keyLt_getLast (S : List EventRow)
    (hS : S.Pairwise (fun a b => keyLt (rowKey a) (rowKey b) = true))
    (n : Nat) (r : EventRow) (hr : (S.take n).getLast? = some r) :
    S.filter (fun x => keyLt (rowKey r) (rowKey x)) = S.drop n := by
  have ht : S.take n ≠ [] := by
    intro h
    rw [h] at hr
    simp at hr
  have hrlast : r = (S.take n).getLast ht :=
    Option.some_inj.mp (hr.symm.trans (List.getLast?_eq_getLast _ ht))
  have hsplit : S.take n ++ S.drop n = S := List.take_append_drop n S
  have hp : (S.take n ++ S.drop n).Pairwise
      (fun a b => keyLt (rowKey a) (rowKey b) = true) := by
    rw [hsplit]
    exact hS
  rw [List.pairwise_append] at hp
  conv_lhs => rw [← hsplit]
  rw [List.filter_append]
  have h1 : (S.take n).filter (fun x => keyLt (rowKey r) (rowKey x)) = [] := by
    rw [List.filter_eq_nil_iff]
    intro x hx
    rcases pairwise_getLast (S.take n) ht hp.1 x hx with h | h
    · have hrx : r = x := hrlast.trans h.symm
      rw [hrx]
      exact keyLt_irrefl _
    · have h' : keyLt (rowKey x) (rowKey r) = true := by
        rw [hrlast]
        exact h
      exact keyLt_asymm h'
  have h2 : (S.drop n).filter (fun x => keyLt (rowKey r) (rowKey x)) =
      S.drop n := by
    rw [List.filter_eq_self]
    intro x hx
    refine hp.2.2 r ?_ x hx
    rw [hrlast]
    exact List.getLast_mem ht
  rw [h1, h2, List.nil_append]

/-- Advancing the cursor to the last row of a full page makes the next
query select exactly the remaining suffix. -/
theorem cursorFilter_advance (rows : List EventRow)
    (hrows : rows.Pairwise (fun a b => keyLt (rowKey a) (rowKey b) = true))
    (cursor : Option EventKey) (n : Nat) (r : EventRow)
    (hr : ((cursorFilter rows cursor).take n).getLast? = some r) :
    cursorFilter rows (some (rowKey r)) = (cursorFilter rows cursor).drop n := by
  have hSsorted : (cursorFilter rows cursor).Pairwise
      (fun a b => keyLt (rowKey a) (rowKey b) = true) := by
    cases cursor with
    | none => exact hrows
    | some c => exact List.Pairwise.sublist (List.filter_sublist _) hrows
  have ht : (cursorFilter rows cursor).take n ≠ [] := by
    intro h
    rw [h] at hr
    simp at hr
  have hrS : r ∈ cursorFilter rows cursor := by
    have heq : r = ((cursorFilter rows cursor).take n).getLast ht :=
      Option.some_inj.mp (hr.symm.trans (List.getLast?_eq_getLast _ ht))
    rw [heq]
    exact (List.take_sublist n _).subset (List.getLast_mem ht)
  have hunfold : cursorFilter rows (some (rowKey r)) =
      rows.filter (fun x => cursorCondition (rowKey r) x) := rfl
  rw [hunfold]
  have hcong : rows.filter (fun x => cursorCondition (rowKey r) x) =
      rows.filter (fun x => keyLt (rowKey r) (rowKey x)) :=
    List.filter_congr (fun x _ => cursorCondition_eq_keyLt _ _)
  rw [hcong]
  have hred : rows.filter (fun x => keyLt (rowKey r) (rowKey x)) =
      (cursorFilter rows cursor).filter
        (fun x => keyLt (rowKey r) (rowKey x)) := by
    cases cursor with
    | none => rfl
    | some c =>
      have hstep : (cursorFilter rows (some c)).filter
            (fun x => keyLt (rowKey r) (rowKey x)) =
          (rows.filter (fun x => cursorCondition c x)).filter
            (fun x => keyLt (rowKey r) (rowKey x)) := rfl
      rw [hstep, List.filter_filter]
      apply List.filter_congr
      intro x _
      cases hky : keyLt (rowKey r) (rowKey x)
      · simp
      · simp only [Bool.true_and]
        have hcr : cursorCondition c r = true := (List.mem_filter.mp hrS).2
        rw [cursorCondition_eq_keyLt] at hcr
        rw [cursorCondition_eq_keyLt]
        exact (keyLt_trans hcr hky).symm
  rw [hred]
  exact filter_keyLt_getLast _ hSsorted n r hr

/-- Joining the pages of the paging loop recovers exactly the rows
behind the cursor, for a strictly sorted row list and a positive page
size, given sufficient fuel. -/
theorem getLogEventsGo_join (pageSize : Nat) (hps : 1 ≤ pageSize)
    (counts : List CountRow) (toTs : Nat) :
    ∀ (fuel : Nat) (rows : List EventRow) (cursor : Option EventKey),
      rows.Pairwise (fun a b => keyLt (rowKey a) (rowKey b) = true) →
      (cursorFilter rows cursor).length < fuel →
      ((getLogEventsGo rows pageSize counts toTs cursor fuel).flatMap
          (fun p => p.events)) =
        cursorFilter rows cursor := by
  intro fuel
  induction fuel with
  | zero =>
    intro rows cursor _ h
    omega
  | succ fuel ih =>
    intro rows cursor hs hlen
    rw [getLogEventsGo]
    by_cases hsz : ((cursorFilter rows cursor).take pageSize).length < pageSize
    · rw [if_pos hsz]
      simp only [List.flatMap_cons, List.flatMap_nil, List.append_nil]
      rw [List.length_take] at hsz
      exact List.take_of_length_le (by omega)
    · rw [if_neg hsz]
      have hrowslen : pageSize ≤ (cursorFilter rows cursor).length := by
        rw [List.length_take] at hsz
        omega
      have hne : (cursorFilter rows cursor).take pageSize ≠ [] := by
        intro h
        have hlen0 := congrArg List.length h
        rw [List.length_take] at hlen0
        simp only [List.length_nil] at hlen0
        omega
      obtain ⟨r, hr⟩ :
          ∃ r, ((cursorFilter rows cursor).take pageSize).getLast? = some r := by
        rw [List.getLast?_eq_getLast _ hne]
        exact ⟨_, rfl⟩
      have hadv := cursorFilter_advance rows hs cursor pageSize r hr
      have hcursor :
          pageCursor cursor ((cursorFilter rows cursor).take pageSize) =
            some (rowKey r) := by
        unfold pageCursor
        rw [hr]
      simp only [List.flatMap_cons]
      rw [hcursor]
      rw [ih rows (some (rowKey r)) hs (by rw [hadv, List.length_drop]; omega)]
      rw [hadv]
      exact List.take_append_drop pageSize _

/-- Every page yielded by the paging loop carries the preamble counts
unchanged. -/
theorem getLogEventsGo_counts (rows : List EventRow) (pageSize : Nat)
    (counts : List CountRow) (toTs : Nat) :
    ∀ (fuel : Nat) (cursor : Option EventKey) (p : LogEventsPage),
      p ∈ getLogEventsGo rows pageSize counts toTs cursor fuel →
      p.counts = counts := by
  intro fuel
  induction fuel with
  | zero =>
    intro cursor p hp
    simp [getLogEventsGo] at hp
  | succ fuel ih =>
    intro cursor p hp
    rw [getLogEventsGo] at hp
    by_cases hsz : ((cursorFilter rows cursor).take pageSize).length < pageSize
    · rw [if_pos hsz] at hp
      rcases List.mem_singleton.mp hp with rfl
      rfl
    · rw [if_neg hsz] at hp
      rcases List.mem_cons.mp hp with rfl | hp'
      · rfl
      · exact ih _ p hp'

/-! ### Interval algebra lemmas -/

/-- Coverage of a cons. -/
theorem covered_cons (x : Nat) (p : Nat × Nat) (l : List (Nat × Nat)) :
    covered x (p :: l) ↔ (p.1 ≤ x ∧ x ≤ p.2) ∨ covered x l := by
  simp only [covered, List.mem_cons]
  constructor
  · rintro ⟨iv, hiv | hiv, h2⟩
    · left
      rw [← hiv]
      exact h2
    · right
      exact ⟨iv, hiv, h2⟩
  · rintro (h | ⟨iv, hiv, h2⟩)
    · exact ⟨p, Or.inl rfl, h⟩
    · exact ⟨iv, Or.inr hiv, h2⟩

/-- Coverage respects permutation. -/
theorem covered_perm {l₁ l₂ : List (Nat × Nat)} (h : l₁.Perm l₂) (x : Nat) :
    covered x l₁ ↔ covered x l₂ := by
  simp only [covered]
  constructor
  · rintro ⟨iv, h1, h2⟩
    exact ⟨iv, h.mem_iff.mp h1, h2⟩
  · rintro ⟨iv, h1, h2⟩
    exact ⟨iv, h.mem_iff.mpr h1, h2⟩

/-- Each output interval of `insertMerge` starts at `a` or is an input
interval. -/
theorem insertMerge_mem (a : Nat) :
    ∀ (l : List (Nat × Nat)) (b : Nat), ∀ x ∈ insertMerge a b l,
      x.1 = a ∨ x ∈ l := by
  intro l
  induction l with
  | nil =>
    intro b x hx
    rw [insertMerge] at hx
    rcases List.mem_singleton.mp hx with rfl
    left
    rfl
  | cons cd tail ih =>
    intro b x hx
    obtain ⟨c, d⟩ := cd
    rw [insertMerge] at hx
    by_cases h : c ≤ b + 1
    · rw [if_pos h] at hx
      rcases ih (max b d) x hx with h' | h'
      · left
        exact h'
      · right
        exact List.mem_cons_of_mem _ h'
    · rw [if_neg h] at hx
      rcases List.mem_cons.mp hx with rfl | h'
      · left
        rfl
      · right
        exact h'

/-- Each output interval of `mergeSweep` starts where some input
interval starts. -/
theorem mergeSweep_mem :
    ∀ (l : List (Nat × Nat)), ∀ x ∈ mergeSweep l, ∃ y ∈ l, y.1 = x.1 := by
  intro l
  induction l with
  | nil =>
    intro x hx
    simp [mergeSweep] at hx
  | cons ab rest ih =>
    intro x hx
    obtain ⟨a, b⟩ := ab
    rw [mergeSweep] at hx
    rcases insertMerge_mem a (mergeSweep rest) b x hx with h | h
    · exact ⟨(a, b), List.mem_cons_self _ _, h.symm⟩
    · obtain ⟨y, hy, hy1⟩ := ih x h
      exact ⟨y, List.mem_cons_of_mem _ hy, hy1⟩

/-- `insertMerge` preserves the canonical (gapped and start-sorted)
shape when pushing an interval whose start is below the list. -/
theorem insertMerge_pairwise :
    ∀ (l : List (Nat × Nat)) (a b : Nat),
      l.Pairwise (fun i j => i.2 + 1 < j.1 ∧ i.1 ≤ j.1) →
      (∀ x ∈ l, a ≤ x.1) →
      (insertMerge a b l).Pairwise (fun i j => i.2 + 1 < j.1 ∧ i.1 ≤ j.1) := by
  intro l
  induction l with
  | nil =>
    intro a b _ _
    simp [insertMerge]
  | cons cd tail ih =>
    intro a b hp ha
    obtain ⟨c, d⟩ := cd
    rw [insertMerge]
    rw [List.pairwise_cons] at hp
    by_cases h : c ≤ b + 1
    · rw [if_pos h]
      refine ih a (max b d) hp.2 ?_
      intro x hx
      exact ha x (List.mem_cons_of_mem _ hx)
    · rw [if_neg h]
      rw [List.pairwise_cons]
      constructor
      · intro z hz
        rcases List.mem_cons.mp hz with rfl | hz'
        · have h1 : a ≤ c := ha (c, d) (List.mem_cons_self _ _)
          show b + 1 < c ∧ a ≤ c
          omega
        · have h1 := hp.1 z hz'
          have h2 : a ≤ z.1 := ha z (List.mem_cons_of_mem _ hz')
          show b + 1 < z.1 ∧ a ≤ z.1
          omega
      · rw [List.pairwise_cons]
        exact ⟨hp.1, hp.2⟩

/-- The sweep of a start-sorted list is canonical: consecutive output
intervals neither overlap nor touch, and starts ascend. -/
theorem mergeSweep_pairwise :
    ∀ (l : List (Nat × Nat)), l.Pairwise (fun i j => i.1 ≤ j.1) →
      (mergeSweep l).Pairwise (fun i j => i.2 + 1 < j.1 ∧ i.1 ≤ j.1) := by
  intro l
  induction l with
  | nil =>
    intro _
    simp [mergeSweep]
  | cons ab rest ih =>
    intro hp
    obtain ⟨a, b⟩ := ab
    rw [List.pairwise_cons] at hp
    rw [mergeSweep]
    refine insertMerge_pairwise _ a b (ih hp.2) ?_
    intro x hx
    obtain ⟨y, hy, hy1⟩ := mergeSweep_mem rest x hx
    rw [← hy1]
    exact hp.1 y hy

/-- `insertMerge` covers exactly the pushed interval plus the list. -/
theorem covered_insertMerge :
    ∀ (l : List (Nat × Nat)) (a b x : Nat),
      (∀ iv ∈ l, a ≤ iv.1) →
      (covered x (insertMerge a b l) ↔ (a ≤ x ∧ x ≤ b) ∨ covered x l) := by
  intro l
  induction l with
  | nil =>
    intro a b x _
    rw [insertMerge, covered_cons]
  | cons cd tail ih =>
    intro a b x ha
    obtain ⟨c, d⟩ := cd
    rw [insertMerge]
    by_cases h : c ≤ b + 1
    · rw [if_pos h]
      rw [ih a (max b d) x (fun iv hiv => ha iv (List.mem_cons_of_mem _ hiv))]
      have hac : a ≤ c := ha (c, d) (List.mem_cons_self _ _)
      rw [covered_cons]
      constructor
      · rintro (⟨h1, h2⟩ | hcov)
        · by_cases hxb : x ≤ b
          · exact Or.inl ⟨h1, hxb⟩
          · right
            left
            constructor
            · omega
            · omega
        · right
          right
          exact hcov
      · rintro (⟨h1, h2⟩ | ⟨h1, h2⟩ | hcov)
        · exact Or.inl ⟨h1, by omega⟩
        · left
          constructor
          · omega
          · simp only at h1 h2
            omega
        · right
          exact hcov
    · rw [if_neg h]
      rw [covered_cons]

/-- The sweep preserves coverage on start-sorted input. -/
theorem covered_mergeSweep :
    ∀ (l : List (Nat × Nat)), l.Pairwise (fun i j => i.1 ≤ j.1) →
      ∀ x, (covered x (mergeSweep l) ↔ covered x l) := by
  intro l
  induction l with
  | nil =>
    intro _ x
    simp [mergeSweep]
  | cons ab rest ih =>
    intro hp x
    obtain ⟨a, b⟩ := ab
    rw [List.pairwise_cons] at hp
    rw [mergeSweep]
    rw [covered_insertMerge (mergeSweep rest) a b x ?ha]
    case ha =>
      intro iv hiv
      obtain ⟨y, hy, hy1⟩ := mergeSweep_mem rest iv hiv
      rw [← hy1]
      exact hp.1 y hy
    rw [ih hp.2 x, covered_cons]

/-- Start-sortedness of the insertion sort of intervals. -/
theorem sortBy_intervalLe_pairwise (l : List (Nat × Nat)) :
    (sortBy intervalLe l).Pairwise (fun i j => i.1 ≤ j.1) := by
  have h := sortBy_pairwise intervalLe
    (fun a b c h1 h2 => by
      simp only [intervalLe, decide_eq_true_eq] at *
      omega)
    (fun a b => by
      simp only [intervalLe]
      rcases Nat.le_total a.1 b.1 with h | h
      · left
        simp [h]
      · right
        simp [h]) l
  exact h.imp (by
    intro a b hab
    simpa [intervalLe] using hab)

/-- `intervalUnion` preserves point coverage. -/
theorem covered_intervalUnion (l : List (Nat × Nat)) (x : Nat) :
    covered x (intervalUnion l) ↔ covered x l := by
  unfold intervalUnion
  rw [covered_mergeSweep _ (sortBy_intervalLe_pairwise l) x]
  exact covered_perm (sortBy_perm intervalLe l) x

/-- `intervalUnion` output is canonical: no two intervals overlap or
touch, and starts ascend. -/
theorem intervalUnion_pairwise (l : List (Nat × Nat)) :
    (intervalUnion l).Pairwise (fun i j => i.2 + 1 < j.1 ∧ i.1 ≤ j.1) :=
  mergeSweep_pairwise _ (sortBy_intervalLe_pairwise l)

/-- Pairwise intersection covers exactly the common points. -/
theorem covered_intervalIntersect (as bs : List (Nat × Nat)) (x : Nat) :
    covered x (intervalIntersect as bs) ↔ covered x as ∧ covered x bs := by
  unfold intervalIntersect
  rw [covered_intervalUnion]
  simp only [covered, List.mem_flatMap, List.mem_filterMap]
  constructor
  · rintro ⟨iv, ⟨a, ha, b, hb, hmk⟩, hx1, hx2⟩
    by_cases h : max a.1 b.1 ≤ min a.2 b.2
    · rw [if_pos h] at hmk
      rw [← Option.some_inj.mp hmk] at hx1 hx2
      simp only at hx1 hx2
      exact ⟨⟨a, ha, by omega, by omega⟩, ⟨b, hb, by omega, by omega⟩⟩
    · rw [if_neg h] at hmk
      exact absurd hmk (by simp)
  · rintro ⟨⟨a, ha, ha1, ha2⟩, ⟨b, hb, hb1, hb2⟩⟩
    refine ⟨(max a.1 b.1, min a.2 b.2), ⟨a, ha, b, hb, ?_⟩, ?_, ?_⟩
    · rw [if_pos (by omega)]
    · simp only
      omega
    · simp only
      omega

/-- Folding pairwise intersections covers exactly the common points. -/
theorem covered_foldl_intersect :
    ∀ (ls : List (List (Nat × Nat))) (acc : List (Nat × Nat)) (x : Nat),
      covered x (ls.foldl intervalIntersect acc) ↔
        covered x acc ∧ ∀ l ∈ ls, covered x l := by
  intro ls
  induction ls with
  | nil =>
    intro acc x
    simp
  | cons l ls ih =>
    intro acc x
    rw [List.foldl_cons, ih, covered_intervalIntersect]
    constructor
    · rintro ⟨⟨h1, h2⟩, h3⟩
      refine ⟨h1, ?_⟩
      intro l' hl'
      rcases List.mem_cons.mp hl' with rfl | hl'
      · exact h2
      · exact h3 l' hl'
    · rintro ⟨h1, h2⟩
      exact ⟨⟨h1, h2 l (List.mem_cons_self _ _)⟩,
        fun l' hl' => h2 l' (List.mem_cons_of_mem _ hl')⟩

/-- `intervalIntersectionMany` of a non-empty family covers exactly the
points covered by every member. -/
theorem covered_intervalIntersectionMany (ls : List (List (Nat × Nat)))
    (hne : ls ≠ []) (x : Nat) :
    covered x (intervalIntersectionMany ls) ↔ ∀ l ∈ ls, covered x l := by
  cases ls with
  | nil => exact absurd rfl hne
  | cons l ls =>
    rw [intervalIntersectionMany, covered_foldl_intersect, covered_intervalUnion]
    constructor
    · rintro ⟨h1, h2⟩
      intro l' hl'
      rcases List.mem_cons.mp hl' with rfl | hl'
      · exact h1
      · exact h2 l' hl'
    · intro h
      exact ⟨h l (List.mem_cons_self _ _),
        fun l' hl' => h l' (List.mem_cons_of_mem _ hl')⟩

/-! ### Store helper lemmas -/

/-- `List.contains` agrees with membership (the derived `BEq` is
lawful). -/
theorem contains_iff_mem {α : Type} [DecidableEq α] (l : List α) (a : α) :
    l.contains a = true ↔ a ∈ l := by
  simp [List.contains, List.elem_iff]

/-- Membership in an upserted `logFilters` table. -/
theorem mem_upsertLogFilter (rows : List LogFilterFragment)
    (f a : LogFilterFragment) :
    a ∈ upsertLogFilter rows f ↔ a ∈ rows ∨ a = f := by
  unfold upsertLogFilter
  by_cases h : rows.contains f
  · rw [if_pos h]
    constructor
    · exact Or.inl
    · rintro (h' | rfl)
      · exact h'
      · exact (contains_iff_mem _ _).mp h
  · rw [if_neg h]
    simp [List.mem_append]

/-- A filter for the fragment id erased by the delete step is empty. -/
theorem filter_not_filter_rows (frag : LogFilterFragment)
    (l : List LogFilterIntervalRow) :
    (l.filter (fun r => !(r.logFilterId == frag))).filter
      (fun r => r.logFilterId == frag) = [] := by
  rw [List.filter_eq_nil_iff]
  intro a ha
  have h2 := (List.mem_filter.mp ha).2
  simp only [Bool.not_eq_true'] at h2
  simp [h2]

/-- The merge transaction rewrites the fragment's own rows to the mapped
`intervalUnion` of its previous rows. -/
theorem mergeFragment_rows_self (s : SyncStore) (frag : LogFilterFragment) :
    (mergeFragmentIntervals s frag).logFilterIntervals.filter
        (fun r => r.logFilterId == frag) =
      (intervalUnion
          ((s.logFilterIntervals.filter (fun r => r.logFilterId == frag)).map
            (fun r => (r.startBlock, r.endBlock)))).map
        (fun iv => ⟨frag, iv.1, iv.2⟩) := by
  simp only [mergeFragmentIntervals]
  rw [List.filter_append]
  rw [filter_not_filter_rows frag]
  rw [List.nil_append]
  rw [List.filter_eq_self]
  intro r hr
  obtain ⟨iv, _, rfl⟩ := List.mem_map.mp hr
  simp

/-- A merge for a different fragment leaves the fragment's rows
untouched. -/
theorem mergeFragment_rows_other (s : SyncStore) (g frag : LogFilterFragment)
    (h : g ≠ frag) :
    (mergeFragmentIntervals s g).logFilterIntervals.filter
        (fun r => r.logFilterId == frag) =
      s.logFilterIntervals.filter (fun r => r.logFilterId == frag) := by
  simp only [mergeFragmentIntervals]
  rw [List.filter_append]
  have h1 : ((intervalUnion
        ((s.logFilterIntervals.filter (fun r => r.logFilterId == g)).map
          (fun r => (r.startBlock, r.endBlock)))).map
        (fun iv => (⟨g, iv.1, iv.2⟩ : LogFilterIntervalRow))).filter
      (fun r => r.logFilterId == frag) = [] := by
    rw [List.filter_eq_nil_iff]
    intro r hr
    obtain ⟨iv, _, rfl⟩ := List.mem_map.mp hr
    simp [h]
  rw [h1, List.append_nil]
  rw [List.filter_filter]
  apply List.filter_congr
  intro r _
  by_cases hr : r.logFilterId = frag
  · have h2 : ¬ (frag = g) := fun hh => h hh.symm
    simp [hr, h2]
  · simp [hr]

/-- Folding merges over fragments not containing `frag` leaves the
fragment's rows untouched. -/
theorem mergeFold_rows_other (frag : LogFilterFragment) :
    ∀ (gs : List LogFilterFragment) (s : SyncStore), frag ∉ gs →
      (gs.foldl mergeFragmentIntervals s).logFilterIntervals.filter
          (fun r => r.logFilterId == frag) =
        s.logFilterIntervals.filter (fun r => r.logFilterId == frag) := by
  intro gs
  induction gs with
  | nil =>
    intro s _
    rfl
  | cons g rest ih =>
    intro s hnot
    rw [List.foldl_cons]
    rw [ih _ (fun hmem => hnot (List.mem_cons_of_mem _ hmem))]
    exact mergeFragment_rows_other s g frag
      (fun h => hnot (h ▸ List.mem_cons_self _ _))

/-- After folding the merge over a fragment list, the rows of every
listed fragment are the image of a canonical interval list. -/
theorem mergeFold_rows_mem :
    ∀ (gs : List LogFilterFragment) (s : SyncStore)
      (frag : LogFilterFragment), frag ∈ gs →
      ∃ l : List (Nat × Nat),
        l.Pairwise (fun i j => i.2 + 1 < j.1 ∧ i.1 ≤ j.1) ∧
        (gs.foldl mergeFragmentIntervals s).logFilterIntervals.filter
            (fun r => r.logFilterId == frag) =
          l.map (fun iv => ⟨frag, iv.1, iv.2⟩) := by
  intro gs
  induction gs with
  | nil =>
    intro s frag h
    simp at h
  | cons g rest ih =>
    intro s frag hmem
    rw [List.foldl_cons]
    by_cases hrest : frag ∈ rest
    · exact ih _ frag hrest
    · have hfg : frag = g := by
        rcases List.mem_cons.mp hmem with h | h
        · exact h
        · exact absurd h hrest
      subst hfg
      refine ⟨intervalUnion
          ((s.logFilterIntervals.filter (fun r => r.logFilterId == frag)).map
            (fun r => (r.startBlock, r.endBlock))),
        intervalUnion_pairwise _, ?_⟩
      rw [mergeFold_rows_other frag rest _ hrest]
      exact mergeFragment_rows_self s frag

/-- Point coverage of the gathered intervals of a fragment, phrased on
the interval table. -/
theorem covered_gather_iff (s : SyncStore) (chainId : Nat)
    (f : LogFilterFragment) (x : Nat) :
    covered x (gatherFragmentIntervals s chainId f) ↔
      ∃ r ∈ s.logFilterIntervals,
        s.logFilters.contains r.logFilterId = true ∧
        fragmentRowJoin f r.logFilterId chainId = true ∧
        r.startBlock ≤ x ∧ x ≤ r.endBlock := by
  simp only [gatherFragmentIntervals, covered]
  constructor
  · rintro ⟨iv, hiv, hx1, hx2⟩
    obtain ⟨r, hr, rfl⟩ := List.mem_map.mp hiv
    have hr' := List.mem_filter.mp hr
    have hconds := hr'.2
    simp only [Bool.and_eq_true] at hconds
    exact ⟨r, hr'.1, hconds.1, hconds.2, hx1, hx2⟩
  · rintro ⟨r, hr, hc, hj, hx1, hx2⟩
    refine ⟨(r.startBlock, r.endBlock), List.mem_map.mpr
      ⟨r, List.mem_filter.mpr ⟨hr, ?_⟩, rfl⟩, hx1, hx2⟩
    rw [Bool.and_eq_true]
    exact ⟨hc, hj⟩

/-- One merge transaction does not change the coverage gathered for any
fragment, in a store satisfying the interval-table foreign-key
invariant. -/
theorem covered_gather_merge (s : SyncStore) (g : LogFilterFragment)
    (chainId : Nat) (f : LogFilterFragment) (x : Nat)
    (hFK : ∀ r ∈ s.logFilterIntervals, r.logFilterId ∈ s.logFilters) :
    covered x (gatherFragmentIntervals (mergeFragmentIntervals s g) chainId f) ↔
      covered x (gatherFragmentIntervals s chainId f) := by
  rw [covered_gather_iff, covered_gather_iff]
  simp only [mergeFragmentIntervals]
  constructor
  · rintro ⟨r, hr, hcont, hjoin, hx1, hx2⟩
    rcases List.mem_append.mp hr with hr' | hr'
    · have hrs : r ∈ s.logFilterIntervals := (List.mem_filter.mp hr').1
      exact ⟨r, hrs, (contains_iff_mem _ _).mpr (hFK r hrs), hjoin, hx1, hx2⟩
    · obtain ⟨iv, hiv, hiveq⟩ := List.mem_map.mp hr'
      have hid : r.logFilterId = g := by rw [← hiveq]
      have hcovu : covered x (intervalUnion
          ((s.logFilterIntervals.filter (fun r => r.logFilterId == g)).map
            (fun r => (r.startBlock, r.endBlock)))) := by
        refine ⟨iv, hiv, ?_, ?_⟩
        · rw [← hiveq] at hx1
          exact hx1
        · rw [← hiveq] at hx2
          exact hx2
      rw [covered_intervalUnion] at hcovu
      obtain ⟨p, hp, hp1, hp2⟩ := hcovu
      obtain ⟨r', hr'', hpeq⟩ := List.mem_map.mp hp
      have hr's : r' ∈ s.logFilterIntervals := (List.mem_filter.mp hr'').1
      have hr'id : r'.logFilterId = g := by
        have := (List.mem_filter.mp hr'').2
        simpa using this
      refine ⟨r', hr's, (contains_iff_mem _ _).mpr (hFK r' hr's), ?_, ?_, ?_⟩
      · rw [hr'id, ← hid]
        exact hjoin
      · rw [← hpeq] at hp1
        exact hp1
      · rw [← hpeq] at hp2
        exact hp2
  · rintro ⟨r, hr, hcont, hjoin, hx1, hx2⟩
    by_cases hg : r.logFilterId = g
    · have hp : (r.startBlock, r.endBlock) ∈
          (s.logFilterIntervals.filter (fun r => r.logFilterId == g)).map
            (fun r => (r.startBlock, r.endBlock)) :=
        List.mem_map.mpr ⟨r, List.mem_filter.mpr ⟨hr, by simp [hg]⟩, rfl⟩
      have hcovu : covered x (intervalUnion
          ((s.logFilterIntervals.filter (fun r => r.logFilterId == g)).map
            (fun r => (r.startBlock, r.endBlock)))) := by
        rw [covered_intervalUnion]
        exact ⟨_, hp, hx1, hx2⟩
      obtain ⟨iv, hiv, hiv1, hiv2⟩ := hcovu
      refine ⟨⟨g, iv.1, iv.2⟩,
        List.mem_append.mpr (Or.inr (List.mem_map.mpr ⟨iv, hiv, rfl⟩)),
        ?_, ?_, hiv1, hiv2⟩
      · exact (contains_iff_mem _ _).mpr
          ((mem_upsertLogFilter _ _ _).mpr (Or.inr rfl))
      · show fragmentRowJoin f g chainId = true
        rw [← hg]
        exact hjoin
    · refine ⟨r, List.mem_append.mpr (Or.inl (List.mem_filter.mpr
        ⟨hr, by simp [hg]⟩)), ?_, hjoin, hx1, hx2⟩
      exact (contains_iff_mem _ _).mpr
        ((mem_upsertLogFilter _ _ _).mpr
          (Or.inl ((contains_iff_mem _ _).mp hcont)))

/-- The merge transaction preserves the foreign-key invariant. -/
theorem mergeFragment_FK (s : SyncStore) (g : LogFilterFragment)
    (hFK : ∀ r ∈ s.logFilterIntervals, r.logFilterId ∈ s.logFilters) :
    ∀ r ∈ (mergeFragmentIntervals s g).logFilterIntervals,
      r.logFilterId ∈ (mergeFragmentIntervals s g).logFilters := by
  intro r hr
  simp only [mergeFragmentIntervals] at hr ⊢
  rcases List.mem_append.mp hr with hr' | hr'
  · exact (mem_upsertLogFilter _ _ _).mpr
      (Or.inl (hFK r (List.mem_filter.mp hr').1))
  · obtain ⟨iv, _, rfl⟩ := List.mem_map.mp hr'
    exact (mem_upsertLogFilter _ _ _).mpr (Or.inr rfl)

/-- Folding merge transactions does not change the coverage gathered
for any fragment (foreign-key invariant assumed). -/
theorem covered_gather_mergeFold (chainId : Nat) (f : LogFilterFragment)
    (x : Nat) :
    ∀ (gs : List LogFilterFragment) (s : SyncStore),
      (∀ r ∈ s.logFilterIntervals, r.logFilterId ∈ s.logFilters) →
      (covered x (gatherFragmentIntervals
          (gs.foldl mergeFragmentIntervals s) chainId f) ↔
        covered x (gatherFragmentIntervals s chainId f)) := by
  intro gs
  induction gs with
  | nil =>
    intro s _
    rfl
  | cons g rest ih =>
    intro s hFK
    rw [List.foldl_cons]
    rw [ih _ (mergeFragment_FK s g hFK)]
    exact covered_gather_merge s g chainId f x hFK

/-- Point-coverage characterisation of `getLogFilterIntervals`: a block
is in the returned coverage exactly when, for every fragment of the
filter, some stored interval row of a subsuming filter on the chain
covers it. -/
theorem covered_getLogFilterIntervals (s : SyncStore) (chainId : Nat)
    (crit : LogFilterCriteria)
    (hFK : ∀ r ∈ s.logFilterIntervals, r.logFilterId ∈ s.logFilters)
    (hfr : buildLogFilterFragments chainId crit ≠ []) (x : Nat) :
    covered x (getLogFilterIntervals s chainId crit).1 ↔
      ∀ f ∈ buildLogFilterFragments chainId crit,
        covered x (gatherFragmentIntervals s chainId f) := by
  simp only [getLogFilterIntervals]
  rw [covered_intervalIntersectionMany _ (by simpa using hfr) x]
  constructor
  · intro h f hf
    rw [← covered_gather_mergeFold chainId f x
      (buildLogFilterFragments chainId crit) s hFK]
    exact h _ (List.mem_map.mpr ⟨f, hf, rfl⟩)
  · intro h l hl
    obtain ⟨f, hf, rfl⟩ := List.mem_map.mp hl
    rw [covered_gather_mergeFold chainId f x
      (buildLogFilterFragments chainId crit) s hFK]
    exact h f hf

/-- Characterisation of the per-fragment fold of
`_insertLogFilterInterval`: the filters table receives the upserted
fragments and the interval table one appended row per fragment. -/
theorem foldl_insertFragment_spec (sB eB : Nat) :
    ∀ (frags : List LogFilterFragment) (s : SyncStore),
      frags.foldl (fun acc frag =>
        { acc with
          logFilters := upsertLogFilter acc.logFilters frag
          logFilterIntervals := acc.logFilterIntervals ++ [⟨frag, sB, eB⟩] }) s =
      { s with
        logFilters := frags.foldl upsertLogFilter s.logFilters
        logFilterIntervals :=
          s.logFilterIntervals ++ frags.map (fun frag => ⟨frag, sB, eB⟩) } := by
  intro frags
  induction frags with
  | nil =>
    intro s
    simp
  | cons fr rest ih =>
    intro s
    rw [List.foldl_cons, ih, List.foldl_cons]
    simp [List.append_assoc]

/-- `_insertLogFilterInterval` unfolded to its effect on the store. -/
theorem insertRows_eq (s : SyncStore) (chainId : Nat)
    (lfs : List LogFilterCriteria) (sB eB : Nat) :
    insertLogFilterIntervalRows s chainId lfs sB eB =
      { s with
        logFilters := ((lfs.map (buildLogFilterFragments chainId)).flatten).foldl
          upsertLogFilter s.logFilters
        logFilterIntervals := s.logFilterIntervals ++
          ((lfs.map (buildLogFilterFragments chainId)).flatten).map
            (fun frag => ⟨frag, sB, eB⟩) } :=
  foldl_insertFragment_spec sB eB _ s

/-- Membership after folding upserts. -/
theorem mem_foldl_upsert :
    ∀ (frags : List LogFilterFragment) (rows : List LogFilterFragment)
      (a : LogFilterFragment),
      a ∈ frags.foldl upsertLogFilter rows ↔ a ∈ rows ∨ a ∈ frags := by
  intro frags
  induction frags with
  | nil =>
    intro rows a
    simp
  | cons f rest ih =>
    intro rows a
    rw [List.foldl_cons, ih, mem_upsertLogFilter]
    rw [List.mem_cons]
    tauto

/-- Upserting an already-present fragment is a no-op. -/
theorem upsertLogFilter_stable (rows : List LogFilterFragment)
    (f : LogFilterFragment) (h : f ∈ rows) : upsertLogFilter rows f = rows := by
  unfold upsertLogFilter
  rw [if_pos ((contains_iff_mem _ _).mpr h)]

/-- Folding upserts of already-present fragments is a no-op. -/
theorem foldl_upsert_stable :
    ∀ (frags : List LogFilterFragment) (rows : List LogFilterFragment),
      (∀ f ∈ frags, f ∈ rows) → frags.foldl upsertLogFilter rows = rows := by
  intro frags
  induction frags with
  | nil =>
    intro rows _
    rfl
  | cons f rest ih =>
    intro rows h
    rw [List.foldl_cons, upsertLogFilter_stable rows f (h f (List.mem_cons_self _ _))]
    exact ih rows (fun g hg => h g (List.mem_cons_of_mem _ hg))

/-- Re-inserting a block with the ignore-on-conflict rule is a no-op. -/
theorem insertBlockIgnore_idem (rows : List BlockRow) (b : BlockRow) :
    insertBlockIgnore (insertBlockIgnore rows b) b = insertBlockIgnore rows b := by
  unfold insertBlockIgnore
  by_cases h : rows.any (fun r => r.hash == b.hash)
  · simp only [if_pos h]
  · simp only [if_neg h]
    have h2 : ((rows ++ [b]).any (fun r => r.hash == b.hash)) = true := by
      rw [List.any_append]
      simp
    rw [if_pos h2]

/-- Conflict-ignoring transaction inserts only append. -/
theorem insertTxIgnore_any_mono (rows : List TxRow) (t : TxRow)
    (p : TxRow → Bool) (h : rows.any p = true) :
    (insertTxIgnore rows t).any p = true := by
  unfold insertTxIgnore
  by_cases hc : rows.any (fun r => r.hash == t.hash)
  · rw [if_pos hc]
    exact h
  · rw [if_neg hc]
    rw [List.any_append]
    simp [h]

/-- Monotonicity of `any` under a fold of transaction inserts. -/
theorem foldl_insertTxIgnore_any_mono :
    ∀ (ts : List TxRow) (rows : List TxRow) (p : TxRow → Bool),
      rows.any p = true → ((ts.foldl insertTxIgnore rows).any p) = true := by
  intro ts
  induction ts with
  | nil =>
    intro rows p h
    exact h
  | cons u us ih =>
    intro rows p h
    rw [List.foldl_cons]
    exact ih _ p (insertTxIgnore_any_mono rows u p h)

/-- After folding transaction inserts, every inserted hash is present. -/
theorem foldl_insertTxIgnore_mem :
    ∀ (ts : List TxRow) (rows : List TxRow) (t : TxRow), t ∈ ts →
      ((ts.foldl insertTxIgnore rows).any (fun r => r.hash == t.hash)) = true := by
  intro ts
  induction ts with
  | nil =>
    intro rows t h
    simp at h
  | cons t' rest ih =>
    intro rows t h
    rw [List.foldl_cons]
    rcases List.mem_cons.mp h with rfl | h'
    · have hbase : ((insertTxIgnore rows t).any (fun r => r.hash == t.hash)) = true := by
        unfold insertTxIgnore
        by_cases hc : rows.any (fun r => r.hash == t.hash)
        · rw [if_pos hc]
          exact hc
        · rw [if_neg hc]
          rw [List.any_append]
          simp
      exact foldl_insertTxIgnore_any_mono rest _ _ hbase
    · exact ih _ t h'

/-- Folding transaction inserts whose hashes are already present is a
no-op. -/
theorem foldl_insertTxIgnore_stable :
    ∀ (ts : List TxRow) (rows : List TxRow),
      (∀ t ∈ ts, rows.any (fun r => r.hash == t.hash) = true) →
      ts.foldl insertTxIgnore rows = rows := by
  intro ts
  induction ts with
  | nil =>
    intro rows _
    rfl
  | cons t rest ih =>
    intro rows h
    rw [List.foldl_cons]
    have hstep : insertTxIgnore rows t = rows := by
      unfold insertTxIgnore
      rw [if_pos (h t (List.mem_cons_self _ _))]
    rw [hstep]
    exact ih rows (fun u hu => h u (List.mem_cons_of_mem _ hu))

/-- Conflict-ignoring log inserts only append. -/
theorem insertLogIgnore_any_mono (rows : List LogRow) (lg : LogRow)
    (p : LogRow → Bool) (h : rows.any p = true) :
    (insertLogIgnore rows lg).any p = true := by
  unfold insertLogIgnore
  by_cases hc : rows.any (fun r => r.id == lg.id)
  · rw [if_pos hc]
    exact h
  · rw [if_neg hc]
    rw [List.any_append]
    simp [h]

/-- Monotonicity of `any` under a fold of log inserts. -/
theorem foldl_insertLogIgnore_any_mono :
    ∀ (ls : List LogRow) (rows : List LogRow) (p : LogRow → Bool),
      rows.any p = true → ((ls.foldl insertLogIgnore rows).any p) = true := by
  intro ls
  induction ls with
  | nil =>
    intro rows p h
    exact h
  | cons u us ih =>
    intro rows p h
    rw [List.foldl_cons]
    exact ih _ p (insertLogIgnore_any_mono rows u p h)

/-- After folding log inserts, every inserted id is present. -/
theorem foldl_insertLogIgnore_mem :
    ∀ (ls : List LogRow) (rows : List LogRow) (lg : LogRow), lg ∈ ls →
      ((ls.foldl insertLogIgnore rows).any (fun r => r.id == lg.id)) = true := by
  intro ls
  induction ls with
  | nil =>
    intro rows lg h
    simp at h
  | cons l' rest ih =>
    intro rows lg h
    rw [List.foldl_cons]
    rcases List.mem_cons.mp h with rfl | h'
    · have hbase : ((insertLogIgnore rows lg).any (fun r => r.id == lg.id)) = true := by
        unfold insertLogIgnore
        by_cases hc : rows.any (fun r => r.id == lg.id)
        · rw [if_pos hc]
          exact hc
        · rw [if_neg hc]
          rw [List.any_append]
          simp
      exact foldl_insertLogIgnore_any_mono rest _ _ hbase
    · exact ih _ lg h'

/-- Folding log inserts whose ids are already present is a no-op. -/
theorem foldl_insertLogIgnore_stable :
    ∀ (ls : List LogRow) (rows : List LogRow),
      (∀ lg ∈ ls, rows.any (fun r => r.id == lg.id) = true) →
      ls.foldl insertLogIgnore rows = rows := by
  intro ls
  induction ls with
  | nil =>
    intro rows _
    rfl
  | cons lg rest ih =>
    intro rows h
    rw [List.foldl_cons]
    have hstep : insertLogIgnore rows lg = rows := by
      unfold insertLogIgnore
      rw [if_pos (h lg (List.mem_cons_self _ _))]
    rw [hstep]
    exact ih rows (fun u hu => h u (List.mem_cons_of_mem _ hu))

/-- Every fragment of a criterion carries the requested chain id. -/
theorem buildLogFilterFragments_chainId (chainId : Nat)
    (crit : LogFilterCriteria) :
    ∀ f ∈ buildLogFilterFragments chainId crit, f.chainId = chainId := by
  intro f hf
  simp only [buildLogFilterFragments, List.mem_flatMap, List.mem_map] at hf
  obtain ⟨a, _, t0, _, t1, _, t2, _, t3, _, rfl⟩ := hf
  rfl

/-- A fragment row always joins against itself on its own chain. -/
theorem fragmentRowJoin_self (f : LogFilterFragment) (chainId : Nat)
    (h : f.chainId = chainId) : fragmentRowJoin f f chainId = true := by
  obtain ⟨fc, fa, f0, f1, f2, f3⟩ := f
  simp only at h
  subst h
  unfold fragmentRowJoin
  cases fa <;> cases f0 <;> cases f1 <;> cases f2 <;> cases f3 <;> simp

/-- Effect of `insertLogFilterInterval` on each table: conflict-ignoring
raw inserts plus, per fragment, a filter upsert and one appended
interval row. -/
theorem insertLogFilterInterval_eq (s : SyncStore) (chainId : Nat)
    (crit : LogFilterCriteria) (b : BlockRow) (txs : List TxRow)
    (lgs : List LogRow) (sB eB : Nat) :
    insertLogFilterInterval s chainId crit b txs lgs sB eB =
      { s with
        blocks := insertBlockIgnore s.blocks { b with chainId := chainId }
        transactions := (txs.map (fun t => { t with chainId := chainId })).foldl
          insertTxIgnore s.transactions
        logs := (lgs.map (fun lg => { lg with chainId := chainId })).foldl
          insertLogIgnore s.logs
        logFilters := (buildLogFilterFragments chainId crit).foldl
          upsertLogFilter s.logFilters
        logFilterIntervals := s.logFilterIntervals ++
          (buildLogFilterFragments chainId crit).map
            (fun frag => ⟨frag, sB, eB⟩) } := by
  simp only [insertLogFilterInterval, insertLogFilterIntervalRows]
  rw [foldl_insertFragment_spec]
  simp [List.foldl_map]

/-- `insertLogFilterInterval` preserves the interval-table foreign-key
invariant. -/
theorem insertLogFilterInterval_FK (s : SyncStore) (chainId : Nat)
    (crit : LogFilterCriteria) (b : BlockRow) (txs : List TxRow)
    (lgs : List LogRow) (sB eB : Nat)
    (hFK : ∀ r ∈ s.logFilterIntervals, r.logFilterId ∈ s.logFilters) :
    ∀ r ∈ (insertLogFilterInterval s chainId crit b txs lgs sB eB).logFilterIntervals,
      r.logFilterId ∈ (insertLogFilterInterval s chainId crit b txs lgs sB eB).logFilters := by
  rw [insertLogFilterInterval_eq]
  intro r hr
  simp only at hr ⊢
  rw [mem_foldl_upsert]
  rcases List.mem_append.mp hr with hr' | hr'
  · exact Or.inl (hFK r hr')
  · obtain ⟨frag, hfrag, rfl⟩ := List.mem_map.mp hr'
    exact Or.inr hfrag

/-- Membership in an upserted `factories` table. -/
theorem mem_upsertFactory (rows : List FactoryFragment)
    (f a : FactoryFragment) :
    a ∈ upsertFactory rows f ↔ a ∈ rows ∨ a = f := by
  unfold upsertFactory
  by_cases h : rows.contains f
  · rw [if_pos h]
    constructor
    · exact Or.inl
    · rintro (h2 | rfl)
      · exact h2
      · exact (contains_iff_mem _ _).mp h
  · rw [if_neg h]
    simp [List.mem_append]

/-- A factory-interval filter for the fragment id erased by the delete
step is empty. -/
theorem filter_not_filter_facRows (frag : FactoryFragment)
    (l : List FactoryIntervalRow) :
    (l.filter (fun r => !(r.factoryId == frag))).filter
      (fun r => r.factoryId == frag) = [] := by
  rw [List.filter_eq_nil_iff]
  intro a ha
  have h2 := (List.mem_filter.mp ha).2
  simp only [Bool.not_eq_true'] at h2
  simp [h2]

/-- The factory merge transaction rewrites the fragment's own rows to
the mapped `intervalUnion` of its previous rows. -/
theorem mergeFactoryFragment_rows_self (s : SyncStore)
    (frag : FactoryFragment) :
    (mergeFactoryFragmentIntervals s frag).factoryLogFilterIntervals.filter
        (fun r => r.factoryId == frag) =
      (intervalUnion
          ((s.factoryLogFilterIntervals.filter (fun r => r.factoryId == frag)).map
            (fun r => (r.startBlock, r.endBlock)))).map
        (fun iv => ⟨frag, iv.1, iv.2⟩) := by
  simp only [mergeFactoryFragmentIntervals]
  rw [List.filter_append]
  rw [filter_not_filter_facRows frag]
  rw [List.nil_append]
  rw [List.filter_eq_self]
  intro r hr
  obtain ⟨iv, _, rfl⟩ := List.mem_map.mp hr
  simp

/-- A factory merge for a different fragment leaves the fragment's rows
untouched. -/
theorem mergeFactoryFragment_rows_other (s : SyncStore)
    (g frag : FactoryFragment) (h : g ≠ frag) :
    (mergeFactoryFragmentIntervals s g).factoryLogFilterIntervals.filter
        (fun r => r.factoryId == frag) =
      s.factoryLogFilterIntervals.filter (fun r => r.factoryId == frag) := by
  simp only [mergeFactoryFragmentIntervals]
  rw [List.filter_append]
  have h1 : ((intervalUnion
        ((s.factoryLogFilterIntervals.filter (fun r => r.factoryId == g)).map
          (fun r => (r.startBlock, r.endBlock)))).map
        (fun iv => (⟨g, iv.1, iv.2⟩ : FactoryIntervalRow))).filter
      (fun r => r.factoryId == frag) = [] := by
    rw [List.filter_eq_nil_iff]
    intro r hr
    obtain ⟨iv, _, rfl⟩ := List.mem_map.mp hr
    simp [h]
  rw [h1, List.append_nil]
  rw [List.filter_filter]
  apply List.filter_congr
  intro r _
  by_cases hr : r.factoryId = frag
  · have h2 : ¬ (frag = g) := fun hh => h hh.symm
    simp [hr, h2]
  · simp [hr]

/-- Folding factory merges over fragments not containing `frag` leaves
the fragment's rows untouched. -/
theorem mergeFactoryFold_rows_other (frag : FactoryFragment) :
    ∀ (gs : List FactoryFragment) (s : SyncStore), frag ∉ gs →
      (gs.foldl mergeFactoryFragmentIntervals s).factoryLogFilterIntervals.filter
          (fun r => r.factoryId == frag) =
        s.factoryLogFilterIntervals.filter (fun r => r.factoryId == frag) := by
  intro gs
  induction gs with
  | nil =>
    intro s _
    rfl
  | cons g rest ih =>
    intro s hnot
    rw [List.foldl_cons]
    rw [ih _ (fun hmem => hnot (List.mem_cons_of_mem _ hmem))]
    exact mergeFactoryFragment_rows_other s g frag
      (fun h => hnot (h ▸ List.mem_cons_self _ _))

/-- After folding the factory merge over a fragment list, the rows of
every listed fragment are the image of a canonical interval list. -/
theorem mergeFactoryFold_rows_mem :
    ∀ (gs : List FactoryFragment) (s : SyncStore)
      (frag : FactoryFragment), frag ∈ gs →
      ∃ l : List (Nat × Nat),
        l.Pairwise (fun i j => i.2 + 1 < j.1 ∧ i.1 ≤ j.1) ∧
        (gs.foldl mergeFactoryFragmentIntervals s).factoryLogFilterIntervals.filter
            (fun r => r.factoryId == frag) =
          l.map (fun iv => ⟨frag, iv.1, iv.2⟩) := by
  intro gs
  induction gs with
  | nil =>
    intro s frag h
    simp at h
  | cons g rest ih =>
    intro s frag hmem
    rw [List.foldl_cons]
    by_cases hrest : frag ∈ rest
    · exact ih _ frag hrest
    · have hfg : frag = g := by
        rcases List.mem_cons.mp hmem with h | h
        · exact h
        · exact absurd h hrest
      subst hfg
      refine ⟨intervalUnion
          ((s.factoryLogFilterIntervals.filter (fun r => r.factoryId == frag)).map
            (fun r => (r.startBlock, r.endBlock))),
        intervalUnion_pairwise _, ?_⟩
      rw [mergeFactoryFold_rows_other frag rest _ hrest]
      exact mergeFactoryFragment_rows_self s frag

/-- Characterisation of the per-fragment fold of
`_insertFactoryLogFilterInterval`: the factories table receives the
upserted fragments and the factory interval table one appended row per
fragment. -/
theorem foldl_insertFacFragment_spec (sB eB : Nat) :
    ∀ (frags : List FactoryFragment) (s : SyncStore),
      frags.foldl (fun acc frag =>
        { acc with
          factories := upsertFactory acc.factories frag
          factoryLogFilterIntervals :=
            acc.factoryLogFilterIntervals ++ [⟨frag, sB, eB⟩] }) s =
      { s with
        factories := frags.foldl upsertFactory s.factories
        factoryLogFilterIntervals :=
          s.factoryLogFilterIntervals ++ frags.map (fun frag => ⟨frag, sB, eB⟩) } := by
  intro frags
  induction frags with
  | nil =>
    intro s
    simp
  | cons fr rest ih =>
    intro s
    rw [List.foldl_cons, ih, List.foldl_cons]
    simp [List.append_assoc]

/-- `_insertFactoryLogFilterInterval` unfolded to its effect on the
store. -/
theorem insertFactoryIntervalRows_eq (s : SyncStore) (chainId : Nat)
    (facs : List FactoryCriteria) (sB eB : Nat) :
    insertFactoryIntervalRows s chainId facs sB eB =
      { s with
        factories := ((facs.map (buildFactoryFragments chainId)).flatten).foldl
          upsertFactory s.factories
        factoryLogFilterIntervals := s.factoryLogFilterIntervals ++
          ((facs.map (buildFactoryFragments chainId)).flatten).map
            (fun frag => ⟨frag, sB, eB⟩) } :=
  foldl_insertFacFragment_spec sB eB _ s

/-! ### Claim theorems -/

/-- C10: in `getLogEvents`, a `logFilter` or `factory` whose `fromBlock`
or `toBlock` equals 0 has that block bound ignored entirely (the clause
is added only when the value is truthy): its predicate coincides with
the predicate of the request with that bound absent, so e.g. a filter
with `toBlock = 0` matches logs at every block number within the
timestamp range. -/
theorem C10_zero_block_bounds_ignored :
    (∀ (flt : LogFilterRequest) (nm : String) (lg : LogRow) (blk : BlockRow),
      logFilterCmprs { flt with fromBlock := some 0 } nm lg blk =
        logFilterCmprs { flt with fromBlock := none } nm lg blk) ∧
    (∀ (flt : LogFilterRequest) (nm : String) (lg : LogRow) (blk : BlockRow),
      logFilterCmprs { flt with toBlock := some 0 } nm lg blk =
        logFilterCmprs { flt with toBlock := none } nm lg blk) ∧
    (∀ (s : SyncStore) (fac : FactoryRequest) (nm : String) (lg : LogRow)
        (blk : BlockRow),
      factoryCmprs s { fac with fromBlock := some 0 } nm lg blk =
        factoryCmprs s { fac with fromBlock := none } nm lg blk) ∧
    (∀ (s : SyncStore) (fac : FactoryRequest) (nm : String) (lg : LogRow)
        (blk : BlockRow),
      factoryCmprs s { fac with toBlock := some 0 } nm lg blk =
        factoryCmprs s { fac with toBlock := none } nm lg blk) := by
  refine ⟨?_, ?_, ?_, ?_⟩
  · intro flt nm lg blk
    simp [logFilterCmprs, fromBlockCmpr]
  · intro flt nm lg blk
    simp [logFilterCmprs, toBlockCmpr]
  · intro s fac nm lg blk
    simp [factoryCmprs, fromBlockCmpr, factoryChildAddressSubquery]
  · intro s fac nm lg blk
    simp [factoryCmprs, toBlockCmpr, factoryChildAddressSubquery]

/-- C6 counterexample: with `childAddressLocation = "offset0"` the
derived child address of `logChildA` is NOT the 20 bytes of the log
data starting at byte offset 0 (which would keep the twelve zero
padding bytes); the expression skips 12 bytes and returns data bytes
12..31. -/
theorem C6_counterexample_offset0 :
    buildFactoryChildAddress "offset0" logChildA =
        some "0xaaaaaaaaaaaaaaaaaaaaaaaaaaaaaaaaaaaaaaaa" ∧
    "0x" ++ sqlSubstring logChildA.data 3 40 =
        "0x000000000000000000000000aaaaaaaaaaaaaaaa" ∧
    buildFactoryChildAddress "offset0" logChildA ≠
        some ("0x" ++ sqlSubstring logChildA.data 3 40) := by
  refine ⟨by decide, by decide, by decide⟩

/-- C6 amended: for `childAddressLocation = "offset<K>"`, the derived
child address is the 20 bytes of the log data starting at byte offset
K + 12 (the low 20 bytes of the 32-byte ABI word at offset K), prefixed
with `"0x"`, with the hex characters taken verbatim from the stored
(lowercase by convention) data. -/
theorem C6_offset_child_address (loc : String) (K : Nat) (lg : LogRow)
    (hloc : locIsOffset loc = true)
    (hK : parseDigits (loc.data.drop 6) = some K) :
    buildFactoryChildAddress loc lg =
      some ("0x" ++
        String.mk ((lg.data.data.drop (2 + 2 * (K + 12))).take 40)) := by
  unfold buildFactoryChildAddress
  rw [if_pos hloc, hK]
  show some ("0x" ++
      sqlSubstring lg.data (2 + 12 * 2 + (some K).getD 0 * 2 + 1) (20 * 2)) = _
  unfold sqlSubstring
  have harith : 2 + 12 * 2 + (some K).getD 0 * 2 + 1 - 1 = 2 + 2 * (K + 12) := by
    simp only [Option.getD_some]
    omega
  rw [harith]

/-- C6 amended witness at `K = 0` on `logChildA`. -/
theorem C6_offset_child_address_witness :
    locIsOffset "offset0" = true ∧
    parseDigits ("offset0".data.drop 6) = some 0 ∧
    buildFactoryChildAddress "offset0" logChildA =
      some ("0x" ++
        String.mk ((logChildA.data.data.drop (2 + 2 * (0 + 12))).take 40)) :=
  ⟨by decide, by decide,
    C6_offset_child_address "offset0" 0 logChildA (by decide) (by decide)⟩

/-- C5: at the failing input — two matching factory logs in the same
block and page size 1 — `getFactoryChildAddresses` yields only the
first child address; the second matching log's derived address appears
in no page, contradicting the claimed exhaustiveness (the cursor
`blockNumber > last` skips the tied row). -/
theorem C5_same_block_skip :
    getFactoryChildAddresses storeChildren 1 100 facChild 1 =
        [[some "0xaaaaaaaaaaaaaaaaaaaaaaaaaaaaaaaaaaaaaaaa"]] ∧
    logChildB ∈ factoryChildLogs storeChildren 1 100 facChild ∧
    buildFactoryChildAddress facChild.childAddressLocation logChildB =
        some "0xbbbbbbbbbbbbbbbbbbbbbbbbbbbbbbbbbbbbbbbb" ∧
    ¬ (some "0xbbbbbbbbbbbbbbbbbbbbbbbbbbbbbbbbbbbbbbbb" ∈
        (getFactoryChildAddresses storeChildren 1 100 facChild 1).flatten) := by
  refine ⟨by decide, by decide, by decide, by decide⟩

/-- C3: after `deleteRealtimeData(chainId, pivot)` no block, transaction,
log or rpc-cache row of the chain lies above the pivot, and every
interval row belonging to a filter (or factory) fragment of the chain
has `startBlock ≤ pivot` and `endBlock ≤ pivot`. -/
theorem C3_deleteRealtimeData (s : SyncStore) (chainId pivot : Nat) :
    (∀ b ∈ (deleteRealtimeData s chainId pivot).blocks,
      b.chainId = chainId → b.number ≤ pivot) ∧
    (∀ t ∈ (deleteRealtimeData s chainId pivot).transactions,
      t.chainId = chainId → t.blockNumber ≤ pivot) ∧
    (∀ lg ∈ (deleteRealtimeData s chainId pivot).logs,
      lg.chainId = chainId → lg.blockNumber ≤ pivot) ∧
    (∀ r ∈ (deleteRealtimeData s chainId pivot).rpcRequestResults,
      r.chainId = chainId → r.blockNumber ≤ pivot) ∧
    (∀ r ∈ (deleteRealtimeData s chainId pivot).logFilterIntervals,
      intervalOnChain (deleteRealtimeData s chainId pivot).logFilters r
          chainId = true →
      r.startBlock ≤ pivot ∧ r.endBlock ≤ pivot) ∧
    (∀ r ∈ (deleteRealtimeData s chainId pivot).factoryLogFilterIntervals,
      factoryIntervalOnChain (deleteRealtimeData s chainId pivot).factories r
          chainId = true →
      r.startBlock ≤ pivot ∧ r.endBlock ≤ pivot) := by
  refine ⟨?_, ?_, ?_, ?_, ?_, ?_⟩
  · intro b hb hc
    simp only [deleteRealtimeData] at hb
    have h2 := (List.mem_filter.mp hb).2
    by_contra hgt
    have hlt : pivot < b.number := Nat.not_le.mp hgt
    simp [hc, hlt] at h2
  · intro t ht hc
    simp only [deleteRealtimeData] at ht
    have h2 := (List.mem_filter.mp ht).2
    by_contra hgt
    have hlt : pivot < t.blockNumber := Nat.not_le.mp hgt
    simp [hc, hlt] at h2
  · intro lg hlg hc
    simp only [deleteRealtimeData] at hlg
    have h2 := (List.mem_filter.mp hlg).2
    by_contra hgt
    have hlt : pivot < lg.blockNumber := Nat.not_le.mp hgt
    simp [hc, hlt] at h2
  · intro r hr hc
    simp only [deleteRealtimeData] at hr
    have h2 := (List.mem_filter.mp hr).2
    by_contra hgt
    have hlt : pivot < r.blockNumber := Nat.not_le.mp hgt
    simp [hc, hlt] at h2
  · intro r hr hchain
    simp only [deleteRealtimeData] at hr hchain
    obtain ⟨r0, hr0, rfl⟩ := List.mem_map.mp hr
    have hfilt := (List.mem_filter.mp hr0).2
    by_cases hif : (intervalOnChain s.logFilters r0 chainId &&
        decide (pivot < r0.endBlock)) = true
    · rw [if_pos hif] at hchain ⊢
      simp only [Bool.and_eq_true, decide_eq_true_eq] at hif
      constructor
      · by_contra hgt
        have hlt : pivot < r0.startBlock := Nat.not_le.mp hgt
        simp [hif.1, hlt] at hfilt
      · exact Nat.le_refl pivot
    · rw [if_neg hif] at hchain ⊢
      have honchain : intervalOnChain s.logFilters r0 chainId = true := hchain
      simp only [Bool.and_eq_true, decide_eq_true_eq, not_and] at hif
      constructor
      · by_contra hgt
        have hlt : pivot < r0.startBlock := Nat.not_le.mp hgt
        simp [honchain, hlt] at hfilt
      · exact Nat.le_of_not_lt (hif honchain)
  · intro r hr hchain
    simp only [deleteRealtimeData] at hr hchain
    obtain ⟨r0, hr0, rfl⟩ := List.mem_map.mp hr
    have hfilt := (List.mem_filter.mp hr0).2
    by_cases hif : (factoryIntervalOnChain s.factories r0 chainId &&
        decide (pivot < r0.endBlock)) = true
    · rw [if_pos hif] at hchain ⊢
      simp only [Bool.and_eq_true, decide_eq_true_eq] at hif
      constructor
      · by_contra hgt
        have hlt : pivot < r0.startBlock := Nat.not_le.mp hgt
        simp [hif.1, hlt] at hfilt
      · exact Nat.le_refl pivot
    · rw [if_neg hif] at hchain ⊢
      have honchain : factoryIntervalOnChain s.factories r0 chainId = true := hchain
      simp only [Bool.and_eq_true, decide_eq_true_eq, not_and] at hif
      constructor
      · by_contra hgt
        have hlt : pivot < r0.startBlock := Nat.not_le.mp hgt
        simp [honchain, hlt] at hfilt
      · exact Nat.le_of_not_lt (hif honchain)

/-- C3 witness: truncating `storeReorg` on chain 1 at pivot 6. -/
theorem C3_deleteRealtimeData_witness :
    (∀ b ∈ (deleteRealtimeData storeReorg 1 6).blocks,
      b.chainId = 1 → b.number ≤ 6) ∧
    (∀ t ∈ (deleteRealtimeData storeReorg 1 6).transactions,
      t.chainId = 1 → t.blockNumber ≤ 6) ∧
    (∀ lg ∈ (deleteRealtimeData storeReorg 1 6).logs,
      lg.chainId = 1 → lg.blockNumber ≤ 6) ∧
    (∀ r ∈ (deleteRealtimeData storeReorg 1 6).rpcRequestResults,
      r.chainId = 1 → r.blockNumber ≤ 6) ∧
    (∀ r ∈ (deleteRealtimeData storeReorg 1 6).logFilterIntervals,
      intervalOnChain (deleteRealtimeData storeReorg 1 6).logFilters r 1 = true →
      r.startBlock ≤ 6 ∧ r.endBlock ≤ 6) ∧
    (∀ r ∈ (deleteRealtimeData storeReorg 1 6).factoryLogFilterIntervals,
      factoryIntervalOnChain (deleteRealtimeData storeReorg 1 6).factories r
          1 = true →
      r.startBlock ≤ 6 ∧ r.endBlock ≤ 6) :=
  C3_deleteRealtimeData storeReorg 1 6

/-- C2 counterexample: after two `insertLogFilterInterval` calls with the
overlapping intervals [0,5] and [3,8] for the same filter, the store
holds two interval rows for the same fragment id that overlap — the
ingestion transaction appends raw interval rows and runs no merge. -/
theorem C2_counterexample_ingestion_not_merged :
    storeOverlap.logFilterIntervals =
      [⟨⟨1, none, some "0xa", none, none, none⟩, 0, 5⟩,
       ⟨⟨1, none, some "0xa", none, none, none⟩, 3, 8⟩] ∧
    ¬ storeOverlap.logFilterIntervals.Pairwise (fun r q =>
        r.logFilterId = q.logFilterId →
          (r.endBlock + 1 < q.startBlock ∨ q.endBlock + 1 < r.startBlock)) := by
  refine ⟨by decide, by decide⟩

/-- C2 amended: every interval-recording ingestion entry point
(`insertLogFilterInterval`, `insertFactoryLogFilterInterval`,
`insertRealtimeInterval`) appends one raw interval row per fragment and
runs no merge; the disjoint and maximally merged canonical form (no two
rows of a fragment overlap or touch) is established per fragment by the
delete-union-reinsert merge procedure that runs at the start of the
coverage queries, and holds in the store returned by
`getLogFilterIntervals` (resp. `getFactoryLogFilterIntervals`) for every
fragment of the queried filter (resp. factory). -/
theorem C2_merged_after_coverage_query (s : SyncStore) (chainId : Nat)
    (crit : LogFilterCriteria) (fac : FactoryCriteria)
    (lfs : List LogFilterCriteria) (facs : List FactoryCriteria)
    (b : BlockRow) (txs : List TxRow) (lgs : List LogRow) (sB eB : Nat)
    (frag : LogFilterFragment) (ffrag : FactoryFragment)
    (hfrag : frag ∈ buildLogFilterFragments chainId crit)
    (hffrag : ffrag ∈ buildFactoryFragments chainId fac) :
    (insertLogFilterInterval s chainId crit b txs lgs sB eB).logFilterIntervals =
      s.logFilterIntervals ++
        (buildLogFilterFragments chainId crit).map (fun g => ⟨g, sB, eB⟩) ∧
    (insertFactoryLogFilterInterval s chainId fac b txs lgs sB eB).factoryLogFilterIntervals =
      s.factoryLogFilterIntervals ++
        (buildFactoryFragments chainId fac).map (fun g => ⟨g, sB, eB⟩) ∧
    (insertRealtimeInterval s chainId lfs facs sB eB).logFilterIntervals =
      s.logFilterIntervals ++
        ((((lfs ++ facs.map (fun f =>
            (⟨ValueSpec.single f.address, [ValueSpec.single f.eventSelector]⟩ :
              LogFilterCriteria))).map
          (buildLogFilterFragments chainId)).flatten).map (fun g => ⟨g, sB, eB⟩)) ∧
    (insertRealtimeInterval s chainId lfs facs sB eB).factoryLogFilterIntervals =
      s.factoryLogFilterIntervals ++
        (((facs.map (buildFactoryFragments chainId)).flatten).map
          (fun g => ⟨g, sB, eB⟩)) ∧
    ((getLogFilterIntervals s chainId crit).2.logFilterIntervals.filter
        (fun r => r.logFilterId == frag)).Pairwise
      (fun r q => r.endBlock + 1 < q.startBlock ∨ q.endBlock + 1 < r.startBlock) ∧
    ((getFactoryLogFilterIntervals s chainId fac).2.factoryLogFilterIntervals.filter
        (fun r => r.factoryId == ffrag)).Pairwise
      (fun r q => r.endBlock + 1 < q.startBlock ∨ q.endBlock + 1 < r.startBlock) := by
  refine ⟨?_, ?_, ?_, ?_, ?_, ?_⟩
  · rw [insertLogFilterInterval_eq]
  · simp only [insertFactoryLogFilterInterval]
    rw [insertFactoryIntervalRows_eq]
    simp
  · simp only [insertRealtimeInterval]
    rw [insertFactoryIntervalRows_eq, insertRows_eq]
  · simp only [insertRealtimeInterval]
    rw [insertFactoryIntervalRows_eq, insertRows_eq]
  · obtain ⟨l, hl, heq⟩ :=
      mergeFold_rows_mem (buildLogFilterFragments chainId crit) s frag hfrag
    have hsnd : (getLogFilterIntervals s chainId crit).2 =
        (buildLogFilterFragments chainId crit).foldl mergeFragmentIntervals s := rfl
    rw [hsnd, heq, List.pairwise_map]
    exact hl.imp (fun h => Or.inl h.1)
  · obtain ⟨l, hl, heq⟩ :=
      mergeFactoryFold_rows_mem (buildFactoryFragments chainId fac) s ffrag hffrag
    have hsnd : (getFactoryLogFilterIntervals s chainId fac).2 =
        (buildFactoryFragments chainId fac).foldl mergeFactoryFragmentIntervals s := rfl
    rw [hsnd, heq, List.pairwise_map]
    exact hl.imp (fun h => Or.inl h.1)

/-- C2 amended witness: the overlapping-ingestion store, the topic-A
filter and the offset-0 factory. -/
theorem C2_merged_after_coverage_query_witness :
    (insertLogFilterInterval storeOverlap 1 critSingleA blockOne [] [] 0 10).logFilterIntervals =
      storeOverlap.logFilterIntervals ++
        (buildLogFilterFragments 1 critSingleA).map (fun g => ⟨g, 0, 10⟩) ∧
    (insertFactoryLogFilterInterval storeOverlap 1 facChild blockOne [] [] 0 10).factoryLogFilterIntervals =
      storeOverlap.factoryLogFilterIntervals ++
        (buildFactoryFragments 1 facChild).map (fun g => ⟨g, 0, 10⟩) ∧
    (insertRealtimeInterval storeOverlap 1 [critSingleA] [facChild] 0 10).logFilterIntervals =
      storeOverlap.logFilterIntervals ++
        (((([critSingleA] ++ [facChild].map (fun f =>
            (⟨ValueSpec.single f.address, [ValueSpec.single f.eventSelector]⟩ :
              LogFilterCriteria))).map
          (buildLogFilterFragments 1)).flatten).map (fun g => ⟨g, 0, 10⟩)) ∧
    (insertRealtimeInterval storeOverlap 1 [critSingleA] [facChild] 0 10).factoryLogFilterIntervals =
      storeOverlap.factoryLogFilterIntervals ++
        ((([facChild].map (buildFactoryFragments 1)).flatten).map
          (fun g => ⟨g, 0, 10⟩)) ∧
    ((getLogFilterIntervals storeOverlap 1 critSingleA).2.logFilterIntervals.filter
        (fun r => r.logFilterId == ⟨1, none, some "0xa", none, none, none⟩)).Pairwise
      (fun r q => r.endBlock + 1 < q.startBlock ∨ q.endBlock + 1 < r.startBlock) ∧
    ((getFactoryLogFilterIntervals storeOverlap 1 facChild).2.factoryLogFilterIntervals.filter
        (fun r => r.factoryId ==
          ⟨1, "0xfac", "0xsel", "offset0", none, none, none, none⟩)).Pairwise
      (fun r q => r.endBlock + 1 < q.startBlock ∨ q.endBlock + 1 < r.startBlock) :=
  C2_merged_after_coverage_query storeOverlap 1 critSingleA facChild
    [critSingleA] [facChild] blockOne [] [] 0 10
    ⟨1, none, some "0xa", none, none, none⟩
    ⟨1, "0xfac", "0xsel", "offset0", none, none, none, none⟩
    (by decide) (by decide)

/-- C4 counterexample: with [0,10] recorded for the topic-A fragment
only and [5,15] for the topic-B fragment only, `getLogFilterIntervals`
on `topics [[A,B]]` returns the intersection [[5,10]], not the empty
list the claim asserts for this input (recording [0,10] for both
fragments does return [[0,10]]). -/
theorem C4_counterexample_s2 :
    (getLogFilterIntervals storeS2 1 critPairAB).1 = [(5, 10)] ∧
    (getLogFilterIntervals storeS2 1 critPairAB).1 ≠ [] ∧
    (getLogFilterIntervals storeS2both 1 critPairAB).1 = [(0, 10)] := by
  refine ⟨by decide, by decide, by decide⟩

/-- C4 amended: `getLogFilterIntervals` returns the intersection, across
the filter's fragments, of the coverage gathered for each fragment (the
union of all stored interval rows on the chain whose filter row subsumes
the fragment): a block is covered by the result exactly when, for every
fragment, some gathered row covers it.  Hypotheses: interval rows
reference existing filter rows, and the fragment expansion is
non-empty.  In particular the S2 scenario yields [[5,10]] and, with
[0,10] recorded for both fragments, [[0,10]]. -/
theorem C4_intersection_of_fragment_coverage (s : SyncStore) (chainId : Nat)
    (crit : LogFilterCriteria)
    (hFK : ∀ r ∈ s.logFilterIntervals, r.logFilterId ∈ s.logFilters)
    (hfr : buildLogFilterFragments chainId crit ≠ []) (x : Nat) :
    covered x (getLogFilterIntervals s chainId crit).1 ↔
      ∀ f ∈ buildLogFilterFragments chainId crit,
        covered x (gatherFragmentIntervals s chainId f) :=
  covered_getLogFilterIntervals s chainId crit hFK hfr x

/-- C4 amended witness at block 7 on the S2 store. -/
theorem C4_intersection_of_fragment_coverage_witness :
    covered 7 (getLogFilterIntervals storeS2 1 critPairAB).1 ↔
      ∀ f ∈ buildLogFilterFragments 1 critPairAB,
        covered 7 (gatherFragmentIntervals storeS2 1 f) :=
  C4_intersection_of_fragment_coverage storeS2 1 critPairAB (by decide)
    (by decide) 7

/-- C9: after `insertLogFilterInterval(f, …, [sB,eB])`, the coverage
returned by `getLogFilterIntervals(f)` contains every block of
[sB,eB] (the interval may come back merged with neighbouring
coverage).  Hypotheses: interval rows of the starting store reference
existing filter rows, and the filter's fragment expansion is non-empty
(an empty expansion makes the source's VALUES clause malformed). -/
theorem C9_insert_then_covered (s : SyncStore) (chainId : Nat)
    (crit : LogFilterCriteria) (b : BlockRow) (txs : List TxRow)
    (lgs : List LogRow) (sB eB x : Nat)
    (hFK : ∀ r ∈ s.logFilterIntervals, r.logFilterId ∈ s.logFilters)
    (hfr : buildLogFilterFragments chainId crit ≠ [])
    (hx1 : sB ≤ x) (hx2 : x ≤ eB) :
    covered x (getLogFilterIntervals
        (insertLogFilterInterval s chainId crit b txs lgs sB eB)
        chainId crit).1 := by
  rw [covered_getLogFilterIntervals _ chainId crit
      (insertLogFilterInterval_FK s chainId crit b txs lgs sB eB hFK) hfr x]
  intro f hf
  rw [covered_gather_iff]
  refine ⟨⟨f, sB, eB⟩, ?_, ?_, ?_, hx1, hx2⟩
  · rw [insertLogFilterInterval_eq]
    exact List.mem_append.mpr (Or.inr (List.mem_map.mpr ⟨f, hf, rfl⟩))
  · rw [insertLogFilterInterval_eq]
    exact (contains_iff_mem _ _).mpr ((mem_foldl_upsert _ _ _).mpr (Or.inr hf))
  · show fragmentRowJoin f f chainId = true
    exact fragmentRowJoin_self f chainId
      (buildLogFilterFragments_chainId chainId crit f hf)

/-- C9 witness: inserting [2,8] for the topic-A filter into the empty
store covers block 5. -/
theorem C9_insert_then_covered_witness :
    covered 5 (getLogFilterIntervals
        (insertLogFilterInterval SyncStore.empty 1 critSingleA blockOne [] [] 2 8)
        1 critSingleA).1 :=
  C9_insert_then_covered SyncStore.empty 1 critSingleA blockOne [] [] 2 8 5
    (by decide) (by decide) (by decide) (by decide)

/-- C7 counterexample: replaying the identical `insertLogFilterInterval`
call does not leave the store in exactly the same state — the interval
recording appends a second copy of the interval row. -/
theorem C7_counterexample_not_idempotent :
    storeTwice ≠ storeOnce ∧
    storeTwice.logFilterIntervals.length = 2 ∧
    storeOnce.logFilterIntervals.length = 1 := by
  refine ⟨by decide, by decide, by decide⟩

/-- C7 amended: replaying the identical `insertLogFilterInterval` call
leaves the `blocks`, `transactions`, `logs` and `logFilters` tables
unchanged (duplicate raw inserts are ignored on key conflict), appends
one duplicate interval row per fragment, and leaves the coverage
reported by `getLogFilterIntervals` unchanged (foreign-key invariant
and non-empty fragment expansion assumed). -/
theorem C7_replay (s : SyncStore) (chainId : Nat) (crit : LogFilterCriteria)
    (b : BlockRow) (txs : List TxRow) (lgs : List LogRow) (sB eB : Nat)
    (hFK : ∀ r ∈ s.logFilterIntervals, r.logFilterId ∈ s.logFilters)
    (hfr : buildLogFilterFragments chainId crit ≠ []) :
    (insertLogFilterInterval
        (insertLogFilterInterval s chainId crit b txs lgs sB eB)
        chainId crit b txs lgs sB eB).blocks =
      (insertLogFilterInterval s chainId crit b txs lgs sB eB).blocks ∧
    (insertLogFilterInterval
        (insertLogFilterInterval s chainId crit b txs lgs sB eB)
        chainId crit b txs lgs sB eB).transactions =
      (insertLogFilterInterval s chainId crit b txs lgs sB eB).transactions ∧
    (insertLogFilterInterval
        (insertLogFilterInterval s chainId crit b txs lgs sB eB)
        chainId crit b txs lgs sB eB).logs =
      (insertLogFilterInterval s chainId crit b txs lgs sB eB).logs ∧
    (insertLogFilterInterval
        (insertLogFilterInterval s chainId crit b txs lgs sB eB)
        chainId crit b txs lgs sB eB).logFilters =
      (insertLogFilterInterval s chainId crit b txs lgs sB eB).logFilters ∧
    (insertLogFilterInterval
        (insertLogFilterInterval s chainId crit b txs lgs sB eB)
        chainId crit b txs lgs sB eB).logFilterIntervals =
      (insertLogFilterInterval s chainId crit b txs lgs sB eB).logFilterIntervals ++
        (buildLogFilterFragments chainId crit).map (fun frag => ⟨frag, sB, eB⟩) ∧
    (∀ x : Nat,
      covered x (getLogFilterIntervals
          (insertLogFilterInterval
            (insertLogFilterInterval s chainId crit b txs lgs sB eB)
            chainId crit b txs lgs sB eB) chainId crit).1 ↔
        covered x (getLogFilterIntervals
          (insertLogFilterInterval s chainId crit b txs lgs sB eB)
          chainId crit).1) := by
  have hFK1 := insertLogFilterInterval_FK s chainId crit b txs lgs sB eB hFK
  have hFK2 := insertLogFilterInterval_FK
    (insertLogFilterInterval s chainId crit b txs lgs sB eB)
    chainId crit b txs lgs sB eB hFK1
  have heq1 := insertLogFilterInterval_eq s chainId crit b txs lgs sB eB
  have heq2 := insertLogFilterInterval_eq
    (insertLogFilterInterval s chainId crit b txs lgs sB eB)
    chainId crit b txs lgs sB eB
  have hblocks : (insertLogFilterInterval
      (insertLogFilterInterval s chainId crit b txs lgs sB eB)
      chainId crit b txs lgs sB eB).blocks =
      (insertLogFilterInterval s chainId crit b txs lgs sB eB).blocks := by
    rw [heq2, heq1]
    exact insertBlockIgnore_idem _ _
  have htxs : (insertLogFilterInterval
      (insertLogFilterInterval s chainId crit b txs lgs sB eB)
      chainId crit b txs lgs sB eB).transactions =
      (insertLogFilterInterval s chainId crit b txs lgs sB eB).transactions := by
    rw [heq2, heq1]
    exact foldl_insertTxIgnore_stable _ _
      (fun t ht => foldl_insertTxIgnore_mem _ _ t ht)
  have hlogs : (insertLogFilterInterval
      (insertLogFilterInterval s chainId crit b txs lgs sB eB)
      chainId crit b txs lgs sB eB).logs =
      (insertLogFilterInterval s chainId crit b txs lgs sB eB).logs := by
    rw [heq2, heq1]
    exact foldl_insertLogIgnore_stable _ _
      (fun lg hlg => foldl_insertLogIgnore_mem _ _ lg hlg)
  have hlf : (insertLogFilterInterval
      (insertLogFilterInterval s chainId crit b txs lgs sB eB)
      chainId crit b txs lgs sB eB).logFilters =
      (insertLogFilterInterval s chainId crit b txs lgs sB eB).logFilters := by
    rw [heq2, heq1]
    exact foldl_upsert_stable _ _
      (fun f hf => (mem_foldl_upsert _ _ _).mpr (Or.inr hf))
  have hiv : (insertLogFilterInterval
      (insertLogFilterInterval s chainId crit b txs lgs sB eB)
      chainId crit b txs lgs sB eB).logFilterIntervals =
      (insertLogFilterInterval s chainId crit b txs lgs sB eB).logFilterIntervals ++
        (buildLogFilterFragments chainId crit).map (fun frag => ⟨frag, sB, eB⟩) := by
    rw [heq2]
  have hiv1 : (insertLogFilterInterval s chainId crit b txs lgs sB eB).logFilterIntervals =
      s.logFilterIntervals ++
        (buildLogFilterFragments chainId crit).map (fun frag => ⟨frag, sB, eB⟩) := by
    rw [heq1]
  refine ⟨hblocks, htxs, hlogs, hlf, hiv, ?_⟩
  intro x
  rw [covered_getLogFilterIntervals _ chainId crit hFK2 hfr x,
    covered_getLogFilterIntervals _ chainId crit hFK1 hfr x]
  have hgather : ∀ f : LogFilterFragment,
      covered x (gatherFragmentIntervals
        (insertLogFilterInterval
          (insertLogFilterInterval s chainId crit b txs lgs sB eB)
          chainId crit b txs lgs sB eB) chainId f) ↔
      covered x (gatherFragmentIntervals
        (insertLogFilterInterval s chainId crit b txs lgs sB eB) chainId f) := by
    intro f
    rw [covered_gather_iff, covered_gather_iff]
    constructor
    · rintro ⟨r, hr, hc, hj, h1, h2⟩
      rw [hiv] at hr
      rw [hlf] at hc
      rcases List.mem_append.mp hr with hr' | hr'
      · exact ⟨r, hr', hc, hj, h1, h2⟩
      · refine ⟨r, ?_, hc, hj, h1, h2⟩
        rw [hiv1]
        exact List.mem_append.mpr (Or.inr hr')
    · rintro ⟨r, hr, hc, hj, h1, h2⟩
      refine ⟨r, ?_, ?_, hj, h1, h2⟩
      · rw [hiv]
        exact List.mem_append.mpr (Or.inl hr)
      · rw [hlf]
        exact hc
  constructor
  · intro h f hf
    exact (hgather f).mp (h f hf)
  · intro h f hf
    exact (hgather f).mpr (h f hf)

/-- C7 amended witness on the concrete replay stores. -/
theorem C7_replay_witness :
    storeTwice.blocks = storeOnce.blocks ∧
    storeTwice.transactions = storeOnce.transactions ∧
    storeTwice.logs = storeOnce.logs ∧
    storeTwice.logFilters = storeOnce.logFilters ∧
    storeTwice.logFilterIntervals = storeOnce.logFilterIntervals ++
      (buildLogFilterFragments 1 critSingleA).map (fun frag => ⟨frag, 0, 10⟩) ∧
    (∀ x : Nat,
      covered x (getLogFilterIntervals storeTwice 1 critSingleA).1 ↔
        covered x (getLogFilterIntervals storeOnce 1 critSingleA).1) :=
  C7_replay SyncStore.empty 1 critSingleA blockOne [] [] 0 10
    (by decide) (by decide)

/-- The preamble counts group lookup equals the number of matched rows
of that group under the selector-free predicate. -/
theorem countLookup_eventCounts (s : SyncStore) (fromTs toTs : Nat)
    (lfs : List LogFilterRequest) (facs : List FactoryRequest)
    (nm : String) (sel : Option String) :
    countLookup (eventCounts s fromTs toTs lfs facs) nm sel =
      ((matchedRows false s fromTs toTs lfs facs).filter
        (fun r => r.eventSource_name == nm && r.log.topic0 == sel)).length := by
  unfold countLookup eventCounts
  cases hfind : ((((matchedRows false s fromTs toTs lfs facs).map
        (fun r => (r.eventSource_name, r.log.topic0))).dedup).map
      (fun k => (⟨k.1, k.2,
        ((matchedRows false s fromTs toTs lfs facs).filter
          (fun r => r.eventSource_name == k.1 && r.log.topic0 == k.2)).length⟩ :
        CountRow))).find?
      (fun c => c.eventSourceName == nm && c.selector == sel) with
  | none =>
    rw [List.find?_eq_none] at hfind
    have hempty : (matchedRows false s fromTs toTs lfs facs).filter
        (fun r => r.eventSource_name == nm && r.log.topic0 == sel) = [] := by
      rw [List.filter_eq_nil_iff]
      intro r hr hpred
      have hkey : (r.eventSource_name, r.log.topic0) ∈
          ((matchedRows false s fromTs toTs lfs facs).map
            (fun r => (r.eventSource_name, r.log.topic0))).dedup :=
        List.mem_dedup.mpr (List.mem_map.mpr ⟨r, hr, rfl⟩)
      have hnot := hfind _ (List.mem_map.mpr ⟨_, hkey, rfl⟩)
      simp only [Bool.and_eq_true, beq_iff_eq] at hpred hnot
      exact hnot ⟨hpred.1, hpred.2⟩
    rw [hempty]
    rfl
  | some c =>
    have hpred := List.find?_some hfind
    have hmem := List.mem_of_find?_eq_some hfind
    obtain ⟨k, _, rfl⟩ := List.mem_map.mp hmem
    simp only [Bool.and_eq_true, beq_iff_eq] at hpred
    show ((matchedRows false s fromTs toTs lfs facs).filter
        (fun r => r.eventSource_name == k.1 && r.log.topic0 == k.2)).length = _
    rw [hpred.1, hpred.2]

/-- C8: every page yielded by a single `getLogEvents` call carries the
same counts metadata — the preamble counts computed once before the
first page, grouped by `(eventSourceName, topic0)` over the same
predicate but with the `includeEventSelectors` clause omitted — so a
count group reports exactly the number of matched rows under the
selector-free predicate, and logs excluded from the pages by
`includeEventSelectors` are still counted. -/
theorem C8_counts_constant (s : SyncStore) (fromTs toTs : Nat)
    (lfs : List LogFilterRequest) (facs : List FactoryRequest)
    (pageSize : Nat) (p : LogEventsPage)
    (hp : p ∈ getLogEvents s fromTs toTs lfs facs pageSize) :
    p.counts = eventCounts s fromTs toTs lfs facs ∧
    ∀ (nm : String) (sel : Option String),
      countLookup p.counts nm sel =
        ((matchedRows false s fromTs toTs lfs facs).filter
          (fun r => r.eventSource_name == nm && r.log.topic0 == sel)).length := by
  have hc : p.counts = eventCounts s fromTs toTs lfs facs :=
    getLogEventsGo_counts _ pageSize _ toTs _ none p hp
  refine ⟨hc, ?_⟩
  intro nm sel
  rw [hc]
  exact countLookup_eventCounts s fromTs toTs lfs facs nm sel

/-- C8 witness on the concrete one-log store. -/
theorem C8_counts_constant_witness :
    ((getLogEvents storeShared 0 200 [reqOne] [] 10).headD ⟨[], 0, []⟩).counts =
        eventCounts storeShared 0 200 [reqOne] [] ∧
    ∀ (nm : String) (sel : Option String),
      countLookup ((getLogEvents storeShared 0 200 [reqOne] [] 10).headD
          ⟨[], 0, []⟩).counts nm sel =
        ((matchedRows false storeShared 0 200 [reqOne] []).filter
          (fun r => r.eventSource_name == nm && r.log.topic0 == sel)).length :=
  C8_counts_constant storeShared 0 200 [reqOne] [] 10 _ (by decide)

/-- C1 counterexample: a log matched by two event sources produces two
joined rows with the same `(timestamp, chainId, blockNumber, logIndex)`
key, so the concatenated pages are NOT strictly ascending in the key and
the log does not appear "exactly once"; moreover with page size 1 the
cursor (strictly greater than the last key) skips the tied second row,
so one matched row appears in no page at all. -/
theorem C1_counterexample_shared_log :
    ((getLogEvents storeShared 0 200 [reqOne, reqTwo] [] 10).flatMap
        (fun p => p.events)).map rowKey =
      [(100, 1, 1, 0), (100, 1, 1, 0)] ∧
    ¬ ((((getLogEvents storeShared 0 200 [reqOne, reqTwo] [] 10).flatMap
        (fun p => p.events)).map rowKey).Pairwise
      (fun a b => keyLt a b = true)) ∧
    (matchedRows true storeShared 0 200 [reqOne, reqTwo] []).length = 2 ∧
    ((getLogEvents storeShared 0 200 [reqOne, reqTwo] [] 1).flatMap
        (fun p => p.events)).length = 1 := by
  refine ⟨by decide, by decide, by decide, by decide⟩

/-- C1 amended: for a positive page size, and a request whose matched
rows have pairwise distinct `(timestamp, chainId, blockNumber,
logIndex)` keys (in particular whenever each stored log matches at most
one requested event source), the concatenation of all pages of
`getLogEvents` is a permutation of the matched rows — every matched row
appears in exactly one page exactly once — and is strictly ascending in
the key; and the nested cursor condition used to select each next page
is exactly "key strictly greater than the cursor" in that lexicographic
order. -/
theorem C1_pagination (s : SyncStore) (fromTs toTs : Nat)
    (lfs : List LogFilterRequest) (facs : List FactoryRequest)
    (pageSize : Nat) (hps : 1 ≤ pageSize)
    (hkeys : (matchedRows true s fromTs toTs lfs facs).Pairwise
      (fun a b => rowKey a ≠ rowKey b)) :
    (((getLogEvents s fromTs toTs lfs facs pageSize).flatMap
        (fun p => p.events)).Perm (matchedRows true s fromTs toTs lfs facs)) ∧
    (((getLogEvents s fromTs toTs lfs facs pageSize).flatMap
        (fun p => p.events)).Pairwise
      (fun a b => keyLt (rowKey a) (rowKey b) = true)) ∧
    (∀ (c : EventKey) (r : EventRow), cursorCondition c r = keyLt c (rowKey r)) := by
  have hperm : (sortBy rowLe (matchedRows true s fromTs toTs lfs facs)).Perm
      (matchedRows true s fromTs toTs lfs facs) := sortBy_perm rowLe _
  have hsorted : (sortBy rowLe (matchedRows true s fromTs toTs lfs facs)).Pairwise
      (fun a b => rowLe a b = true) :=
    sortBy_pairwise rowLe rowLe_trans rowLe_total _
  have hne : (sortBy rowLe (matchedRows true s fromTs toTs lfs facs)).Pairwise
      (fun a b => rowKey a ≠ rowKey b) :=
    (hperm.pairwise_iff (fun h heq => h heq.symm)).mpr hkeys
  have hstrict : (sortBy rowLe (matchedRows true s fromTs toTs lfs facs)).Pairwise
      (fun a b => keyLt (rowKey a) (rowKey b) = true) := by
    refine (hsorted.and hne).imp ?_
    rintro a b ⟨h1, h2⟩
    rw [rowLe_iff] at h1
    by_contra h3
    exact h2 (keyLt_conn h3 h1)
  have hunfold : getLogEvents s fromTs toTs lfs facs pageSize =
      getLogEventsGo (sortBy rowLe (matchedRows true s fromTs toTs lfs facs))
        pageSize (eventCounts s fromTs toTs lfs facs) toTs none
        ((sortBy rowLe (matchedRows true s fromTs toTs lfs facs)).length + 1) := rfl
  have hjoin := getLogEventsGo_join pageSize hps
    (eventCounts s fromTs toTs lfs facs) toTs
    ((sortBy rowLe (matchedRows true s fromTs toTs lfs facs)).length + 1)
    (sortBy rowLe (matchedRows true s fromTs toTs lfs facs)) none hstrict
    (Nat.lt_succ_self _)
  have hfilter : cursorFilter
      (sortBy rowLe (matchedRows true s fromTs toTs lfs facs)) none =
      sortBy rowLe (matchedRows true s fromTs toTs lfs facs) := rfl
  rw [hfilter] at hjoin
  refine ⟨?_, ?_, cursorCondition_eq_keyLt⟩
  · rw [hunfold, hjoin]
    exact hperm
  · rw [hunfold, hjoin]
    exact hstrict

/-- C1 amended witness: a single event source and a single log, paged
one row at a time. -/
theorem C1_pagination_witness :
    (((getLogEvents storeShared 0 200 [reqOne] [] 1).flatMap
        (fun p => p.events)).Perm (matchedRows true storeShared 0 200 [reqOne] [])) ∧
    (((getLogEvents storeShared 0 200 [reqOne] [] 1).flatMap
        (fun p => p.events)).Pairwise
      (fun a b => keyLt (rowKey a) (rowKey b) = true)) ∧
    (∀ (c : EventKey) (r : EventRow), cursorCondition c r = keyLt c (rowKey r)) :=
  C1_pagination storeShared 0 200 [reqOne] [] 1 (by decide) (by decide)
